import Mathlib

/-!
Verification development for the BMAD workflow orchestrator
(`src/index.ts`, `src/master-prompt.ts`).

The TypeScript sources are shallowly embedded: JavaScript strings are
modelled as `List Char`, the filesystem as an association list from
structured paths to file contents, the in-memory session table and the
durable session records as association lists keyed by session id, and the
millisecond clock as a natural number that is ticked at every file save
(this models the assumption that consecutive saves happen at distinct
timestamps).  `JSON.parse` is modelled by a recursive-descent JSON parser;
the regular-expression searches of the source are modelled by explicit
character scans that mirror the behaviour of the concrete patterns used
(first-match scanning, lazy captures stopping at the first terminator,
greedy digit/whitespace runs).
-/

namespace Bmad

/-- JavaScript strings are modelled as lists of characters. -/
abbrev Str := List Char

/-- Convert a Lean string literal to the model's string type. -/
def lc (s : String) : Str := s.toList

/-- Whitespace class of JavaScript regular expressions (`\s`) and of
`String.prototype.trim`, restricted to the ASCII range plus NBSP; the
rarer Unicode space code points are not modelled. -/
def isJsWs (c : Char) : Bool :=
  c = ' ' || c = '\t' || c = '\n' || c = '\r' || c = '\x0b' || c = '\x0c' || c = '\xa0'

/-- JSON whitespace (RFC 8259): space, tab, line feed, carriage return. -/
def isJsonWs (c : Char) : Bool :=
  c = ' ' || c = '\t' || c = '\n' || c = '\r'

/-- ASCII digit test, the JavaScript regex class `\d`. -/
def isDigit (c : Char) : Bool := '0' ≤ c && c ≤ '9'

/-- Numeric value of a list of ASCII digits (decimal `parseInt`). -/
def digitsToNat (ds : Str) : Nat :=
  ds.foldl (fun n c => n * 10 + (c.toNat - '0'.toNat)) 0

/-- Decimal rendering of a natural number. -/
def natToStr (n : Nat) : Str := Nat.toDigits 10 n

/-- Lower-casing a string (`String.prototype.toLowerCase`, ASCII-faithful). -/
def toLowerStr (s : Str) : Str := s.map Char.toLower

/-- Match a literal at the head of the input, returning the rest. -/
def dropLiteral (lit s : Str) : Option Str :=
  if lit.isPrefixOf s then some (s.drop lit.length) else none

/-- Case-insensitive literal match at the head of the input. -/
def dropLiteralCI (lit s : Str) : Option Str :=
  if (toLowerStr lit).isPrefixOf (toLowerStr (s.take lit.length)) && lit.length ≤ s.length
  then some (s.drop lit.length) else none

/-- Does `pat` occur (case-sensitively) as a substring of `s`?  Models
`String.prototype.includes`. -/
def containsSubstr (s pat : Str) : Bool :=
  match s with
  | [] => pat.isPrefixOf ([] : Str)
  | _ :: rest => pat.isPrefixOf s || containsSubstr rest pat

/-- JavaScript `String.prototype.trim`: strip `\s` from both ends. -/
def trimStr (s : Str) : Str :=
  ((s.dropWhile isJsWs).reverse.dropWhile isJsWs).reverse

/-- One pass of `String.prototype.replace` with a `g`-flagged literal
pattern: left-to-right, non-overlapping.  `fuel` bounds the recursion; it
is instantiated with the input length, which suffices for the non-empty
patterns used. -/
def replaceAllGo (pat rep : Str) : Nat → Str → Str
  | 0, s => s
  | _ + 1, [] => []
  | fuel + 1, c :: rest =>
    if pat.isPrefixOf (c :: rest) then
      rep ++ replaceAllGo pat rep fuel ((c :: rest).drop pat.length)
    else
      c :: replaceAllGo pat rep fuel rest

/-- `s.replace(pat-as-global-literal, rep)` for a non-empty literal `pat`. -/
def replaceAll (pat rep s : Str) : Str :=
  replaceAllGo pat rep s.length s

/-- UTF-8 byte length of a string (`Buffer.byteLength(content, "utf-8")`). -/
def utf8Len (s : Str) : Nat := s.foldl (fun n c => n + c.utf8Size) 0

/-! ### JSON values and `JSON.parse`

A recursive-descent model of `JSON.parse`.  Numbers keep their source
lexeme (the numeric value is never inspected by the orchestrator).
Duplicate object keys follow JavaScript semantics: the later value wins
while the key keeps its first position (`objInsert`). -/

/-- Parsed JSON values. -/
inductive Json where
  | jnull : Json
  | jbool : Bool → Json
  | jnum : Str → Json
  | jstr : Str → Json
  | jarr : List Json → Json
  | jobj : List (Str × Json) → Json

/-- Insert a key/value pair into an object, JavaScript-style: an existing
key keeps its position but receives the new value. -/
def objInsert (fields : List (Str × Json)) (k : Str) (v : Json) : List (Str × Json) :=
  match fields with
  | [] => [(k, v)]
  | kv :: rest => if kv.1 = k then (k, v) :: rest else kv :: objInsert rest k v

/-- Value of a hexadecimal digit. -/
def hexVal (c : Char) : Option Nat :=
  let n := c.toNat
  if 48 ≤ n ∧ n ≤ 57 then some (n - 48)
  else if 97 ≤ n ∧ n ≤ 102 then some (n - 87)
  else if 65 ≤ n ∧ n ≤ 70 then some (n - 55)
  else none

/-- Parse the body of a JSON string (the opening quote already consumed),
handling the escape sequences of RFC 8259 and rejecting raw control
characters.  A `\u` escape that denotes a lone surrogate is mapped to
`Char.ofNat`'s fallback, an approximation that no input of this
development exercises. -/
def parseJString : Nat → Str → Option (Str × Str)
  | 0, _ => none
  | _ + 1, [] => none
  | fuel + 1, c :: rest =>
    if c = '"' then some ([], rest)
    else if c = '\\' then
      match rest with
      | [] => none
      | e :: rest2 =>
        if e = '"' then (parseJString fuel rest2).map (fun pr => ('"' :: pr.1, pr.2))
        else if e = '\\' then (parseJString fuel rest2).map (fun pr => ('\\' :: pr.1, pr.2))
        else if e = '/' then (parseJString fuel rest2).map (fun pr => ('/' :: pr.1, pr.2))
        else if e = 'b' then (parseJString fuel rest2).map (fun pr => ('\x08' :: pr.1, pr.2))
        else if e = 'f' then (parseJString fuel rest2).map (fun pr => ('\x0c' :: pr.1, pr.2))
        else if e = 'n' then (parseJString fuel rest2).map (fun pr => ('\n' :: pr.1, pr.2))
        else if e = 'r' then (parseJString fuel rest2).map (fun pr => ('\r' :: pr.1, pr.2))
        else if e = 't' then (parseJString fuel rest2).map (fun pr => ('\t' :: pr.1, pr.2))
        else if e = 'u' then
          match rest2 with
          | a :: b :: c2 :: d :: rest3 =>
            match hexVal a, hexVal b, hexVal c2, hexVal d with
            | some ha, some hb, some hc, some hd =>
              let code := ((ha * 16 + hb) * 16 + hc) * 16 + hd
              (parseJString fuel rest3).map (fun pr => (Char.ofNat code :: pr.1, pr.2))
            | _, _, _, _ => none
          | _ => none
        else none
    else if c.toNat < 0x20 then none
    else (parseJString fuel rest).map (fun pr => (c :: pr.1, pr.2))

/-- Fractional part of a JSON number: either absent, or a dot followed by
at least one digit. -/
def parseJFrac (s : Str) : Option (Str × Str) :=
  match s with
  | '.' :: r =>
    let ds := r.takeWhile isDigit
    if ds.isEmpty then none else some ('.' :: ds, r.dropWhile isDigit)
  | _ => some ([], s)

/-- Exponent part of a JSON number: either absent, or `e`/`E`, an optional
sign, and at least one digit. -/
def parseJExp (s : Str) : Option (Str × Str) :=
  match s with
  | e :: r =>
    if e = 'e' || e = 'E' then
      let (es, r2) : Str × Str := match r with
        | '+' :: rr => (['+'], rr)
        | '-' :: rr => (['-'], rr)
        | _ => ([], r)
      let ds := r2.takeWhile isDigit
      if ds.isEmpty then none else some (e :: (es ++ ds), r2.dropWhile isDigit)
    else some ([], s)
  | [] => some ([], s)

/-- Parse a JSON number, returning its lexeme and the rest of the input. -/
def parseJNumber (s : Str) : Option (Str × Str) :=
  let (sign, s1) : Str × Str := match s with
    | '-' :: r => (['-'], r)
    | _ => ([], s)
  let intPart : Option (Str × Str) := match s1 with
    | '0' :: r => some (['0'], r)
    | c :: r => if isDigit c && c ≠ '0' then some (c :: r.takeWhile isDigit, r.dropWhile isDigit) else none
    | [] => none
  match intPart with
  | none => none
  | some (ip, s2) =>
    match parseJFrac s2 with
    | none => none
    | some (fp, s3) =>
      match parseJExp s3 with
      | none => none
      | some (ex, s4) => some (sign ++ ip ++ fp ++ ex, s4)

mutual

/-- Parse one JSON value (leading whitespace allowed). -/
def parseVal : Nat → Str → Option (Json × Str)
  | 0, _ => none
  | fuel + 1, s =>
    match s.dropWhile isJsonWs with
    | [] => none
    | '{' :: r =>
      (match r.dropWhile isJsonWs with
       | '}' :: r2 => some (.jobj [], r2)
       | _ => parseObjFields fuel r [])
    | '[' :: r =>
      (match r.dropWhile isJsonWs with
       | ']' :: r2 => some (.jarr [], r2)
       | _ => parseArrItems fuel r [])
    | '"' :: r => (parseJString (r.length + 1) r).map (fun pr => (.jstr pr.1, pr.2))
    | 't' :: r => (dropLiteral (lc "rue") r).map (fun r2 => (.jbool true, r2))
    | 'f' :: r => (dropLiteral (lc "alse") r).map (fun r2 => (.jbool false, r2))
    | 'n' :: r => (dropLiteral (lc "ull") r).map (fun r2 => (.jnull, r2))
    | s' => (parseJNumber s').map (fun pr => (.jnum pr.1, pr.2))

/-- Parse the items of a non-empty JSON array (after the opening bracket). -/
def parseArrItems : Nat → Str → List Json → Option (Json × Str)
  | 0, _, _ => none
  | fuel + 1, s, acc =>
    match parseVal fuel s with
    | none => none
    | some (v, rest) =>
      match rest.dropWhile isJsonWs with
      | ',' :: r2 => parseArrItems fuel r2 (acc ++ [v])
      | ']' :: r2 => some (.jarr (acc ++ [v]), r2)
      | _ => none

/-- Parse the fields of a non-empty JSON object (after the opening brace). -/
def parseObjFields : Nat → Str → List (Str × Json) → Option (Json × Str)
  | 0, _, _ => none
  | fuel + 1, s, acc =>
    match s.dropWhile isJsonWs with
    | '"' :: r =>
      (match parseJString (r.length + 1) r with
       | none => none
       | some (key, rest) =>
         match rest.dropWhile isJsonWs with
         | ':' :: r2 =>
           (match parseVal fuel r2 with
            | none => none
            | some (v, rest2) =>
              let acc2 := objInsert acc key v
              match rest2.dropWhile isJsonWs with
              | ',' :: r3 => parseObjFields fuel r3 acc2
              | '}' :: r3 => some (.jobj acc2, r3)
              | _ => none)
         | _ => none)
    | _ => none

end

/-- `JSON.parse`: parse a complete JSON document; trailing garbage makes
the parse fail.  `none` models a thrown `SyntaxError`. -/
def jsonParse (s : Str) : Option Json :=
  match parseVal (2 * s.length + 8) s with
  | some (v, rest) => if (rest.dropWhile isJsonWs).isEmpty then some v else none
  | none => none

mutual

/-- JavaScript `String(v)` on a parsed JSON value: strings unchanged,
arrays joined with commas, plain objects rendered as `[object Object]`.
Number lexemes are kept verbatim, an approximation of JavaScript's
number-to-string normalisation that only matters for exotic lexemes. -/
def jsToString : Json → Str
  | .jnull => lc "null"
  | .jbool true => lc "true"
  | .jbool false => lc "false"
  | .jnum lex => lex
  | .jstr s => s
  | .jobj _ => lc "[object Object]"
  | .jarr items => jsToStringList items

/-- Comma-joined rendering of array elements (`Array.prototype.toString`). -/
def jsToStringList : List Json → Str
  | [] => []
  | [v] => jsToString v
  | v :: rest => jsToString v ++ ',' :: jsToStringList rest

end

/-- Truthiness of a parsed JSON value (`if (v)` in JavaScript).  A number
is falsy iff it is zero; the lexeme test used here covers the zero
spellings JSON admits. -/
def jsTruthy : Json → Bool
  | .jnull => false
  | .jbool b => b
  | .jstr s => !s.isEmpty
  | .jnum lex => !(lex.filter isDigit).all (· = '0')
  | .jarr _ => true
  | .jobj _ => true

/-! ### Score extraction (`scoreContent`, `estimateScoreByContent`) -/

/-- Match the pattern `"quality_score"\s*:\s*(\d+)` at the head of the
input, returning the digit run's value. -/
def matchQualityScoreAt (s : Str) : Option Nat :=
  match dropLiteral (lc "\"quality_score\"") s with
  | none => none
  | some r =>
    match (r.dropWhile isJsWs) with
    | ':' :: r2 =>
      let ds := (r2.dropWhile isJsWs).takeWhile isDigit
      if ds.isEmpty then none else some (digitsToNat ds)
    | _ => none

/-- Value of the last match of `/"quality_score"\s*:\s*(\d+)/g` in the
input (the source takes the last element of `content.match(...)` and
re-extracts its digit run). -/
def lastQualityScore : Str → Option Nat
  | [] => none
  | c :: rest =>
    match lastQualityScore rest with
    | some v => some v
    | none => matchQualityScoreAt (c :: rest)

/-- Match `/Quality Score:\s*(\d+)\/100/i` at the head of the input. -/
def matchTextScoreAt (s : Str) : Option Nat :=
  match dropLiteralCI (lc "Quality Score:") s with
  | none => none
  | some r =>
    let ds := (r.dropWhile isJsWs).takeWhile isDigit
    if ds.isEmpty then none
    else if (lc "/100").isPrefixOf ((r.dropWhile isJsWs).dropWhile isDigit) then
      some (digitsToNat ds)
    else none

/-- Value of the first match of `/Quality Score:\s*(\d+)\/100/i`. -/
def firstTextScore : Str → Option Nat
  | [] => none
  | c :: rest =>
    match matchTextScoreAt (c :: rest) with
    | some v => some v
    | none => firstTextScore rest

/-- Does `/\d+%|<\s*\d+ms|>\s*\d+/` match anywhere?  Checked positionwise:
a digit run followed by `%`, or `<`/`>` followed by optional whitespace
and a digit run (the `<` branch additionally requiring a trailing `ms`). -/
def quantAt (s : Str) : Bool :=
  (match s with
   | c :: _ =>
     (isDigit c && (match (s.dropWhile isDigit) with | '%' :: _ => true | _ => false))
   | [] => false) ||
  (match s with
   | '<' :: r =>
     let r2 := r.dropWhile isJsWs
     !(r2.takeWhile isDigit).isEmpty && (lc "ms").isPrefixOf (r2.dropWhile isDigit)
   | _ => false) ||
  (match s with
   | '>' :: r =>
     let r2 := r.dropWhile isJsWs
     !(r2.takeWhile isDigit).isEmpty
   | _ => false)

/-- Scan for a quantitative-metric pattern anywhere in the input. -/
def hasQuantPattern : Str → Bool
  | [] => false
  | c :: rest => quantAt (c :: rest) || hasQuantPattern rest

/-- Fallback scoring by section completeness (`estimateScoreByContent`):
base 60, +5 per required section heading, +5 for a quantitative metric,
+5 for an acceptance-criteria marker, capped at 85. -/
def estimateScoreByContent (content : Str) : Nat :=
  let sections : List Str :=
    [lc "Executive Summary", lc "Business Goals", lc "User Stories",
     lc "Functional Requirements", lc "Technical Requirements", lc "Success Metrics"]
  let score := 60 + 5 * (sections.filter (fun sec => containsSubstr content sec)).length
  let score := if hasQuantPattern content then score + 5 else score
  let score :=
    if containsSubstr content (lc "Acceptance Criteria") || containsSubstr content (lc "验收标准")
    then score + 5 else score
  min score 85

/-- Score extraction (`scoreContent`): last structured `"quality_score"`
field if in range, else first labelled `Quality Score: n/100` if in
range, else the section-completeness fallback. -/
def scoreContent (content : Str) : Nat :=
  match lastQualityScore content with
  | some v => if v ≤ 100 then v else
      (match firstTextScore content with
       | some w => if w ≤ 100 then w else estimateScoreByContent content
       | none => estimateScoreByContent content)
  | none =>
      match firstTextScore content with
      | some w => if w ≤ 100 then w else estimateScoreByContent content
      | none => estimateScoreByContent content

/-! ### Clarification extraction (`extractQuestions`, `extractGaps`) -/

/-- Match `anchor` then `\s*` then `[` at the head of the input and return
the lazy capture up to (excluding) the first `]`, which must exist. -/
def matchAnchorAt (anchor s : Str) : Option Str :=
  match dropLiteral anchor s with
  | none => none
  | some r =>
    match r.dropWhile isJsWs with
    | '[' :: r2 =>
      let cap := r2.takeWhile (· ≠ ']')
      if (r2.dropWhile (· ≠ ']')).isEmpty then none else some cap
    | _ => none

/-- First match of `/anchor\s*\[([\s\S]*?)\]/` over the whole input. -/
def findAnchoredArray (anchor : Str) : Str → Option Str
  | [] => none
  | c :: rest =>
    match matchAnchorAt anchor (c :: rest) with
    | some cap => some cap
    | none => findAnchoredArray anchor rest

/-- A clarification question: id, text, optional context. -/
structure Question where
  id : Str
  question : Str
  context : Option Str
deriving DecidableEq

/-- Build a `ClarificationQuestion` from the `idx`-th parsed array entry:
`id: q.id || "q{idx+1}"`, `question: q.question || String(q)`,
`context: q.context`.  Non-string `id`/`context` values (which the
TypeScript interface rules out) are modelled as absent. -/
def jsonToQuestion (idx : Nat) (q : Json) : Question :=
  let defaultId : Str := 'q' :: natToStr (idx + 1)
  { id :=
      match q with
      | .jobj f => (match f.lookup (lc "id") with
                    | some (.jstr s) => if s.isEmpty then defaultId else s
                    | _ => defaultId)
      | _ => defaultId
    question :=
      match q with
      | .jobj f => (match f.lookup (lc "question") with
                    | some v => if jsTruthy v then jsToString v else jsToString q
                    | none => jsToString q)
      | other => jsToString other
    context :=
      match q with
      | .jobj f => (match f.lookup (lc "context") with
                    | some (.jstr s) => some s
                    | _ => none)
      | _ => none }

/-- Extract the embedded `"questions": [...]` array; any failure yields
the empty list. -/
def extractQuestions (content : Str) : List Question :=
  match findAnchoredArray (lc "\"questions\":") content with
  | none => []
  | some inner =>
    match jsonParse ('[' :: (inner ++ [']'])) with
    | some (.jarr items) => items.enum.map (fun p => jsonToQuestion p.1 p.2)
    | _ => []

/-- Extract the embedded `"gaps": [...]` array of strings; any failure
yields the empty list. -/
def extractGaps (content : Str) : List Str :=
  match findAnchoredArray (lc "\"gaps\":") content with
  | none => []
  | some inner =>
    match jsonParse ('[' :: (inner ++ [']'])) with
    | some (.jarr items) => items.map jsToString
    | _ => []

/-- Merge two question lists (`mergeQuestions`): keep the first verbatim,
append questions from the second whose lower-cased text is new. -/
def mergeQuestions (qs1 qs2 : List Question) : List Question :=
  (qs2.foldl
    (fun (acc : List Question × List Str) q =>
      if acc.2.contains (toLowerStr q.question) then acc
      else (acc.1 ++ [q], toLowerStr q.question :: acc.2))
    (qs1, qs1.map (fun q => toLowerStr q.question))).1

/-- `Array.from(new Set(l))`: deduplicate keeping first occurrences. -/
def dedupStrs (l : List Str) : List Str :=
  l.foldl (fun acc x => if acc.contains x then acc else acc ++ [x]) []

/-! ### Draft extraction (`extractDraft`) -/

/-- `STAGE_CONTENT_FIELDS` flattened in the order `extractDraft` builds
`allFields`: po, architect, sm, dev, review, qa, then the generic names. -/
def allContentFields : List Str :=
  [lc "prd_draft", lc "prd_updated",
   lc "architecture_draft", lc "architecture_updated",
   lc "sprint_plan", lc "sprint_plan_updated", lc "plan", lc "plan_updated",
   lc "implementation", lc "code", lc "dev_result",
   lc "review", lc "review_result", lc "code_review",
   lc "qa_report", lc "test_report", lc "qa_result",
   lc "draft", lc "result", lc "content"]

/-- First field of `fields` that maps to a string in the parsed object. -/
def firstStringField (obj : List (Str × Json)) : List Str → Option Str
  | [] => none
  | f :: fs =>
    match obj.lookup f with
    | some (.jstr v) => some v
    | _ => firstStringField obj fs

/-- Shortest prefix of the input whose remainder is `\s*` followed by
three backticks; `none` when no closing fence exists. -/
def fenceCapture : Str → Option Str
  | [] => none
  | c :: rest =>
    if (lc "```").isPrefixOf ((c :: rest).dropWhile isJsWs) then some []
    else (fenceCapture rest).map (fun cap => c :: cap)

/-- Match the fenced-JSON pattern (backtick fence, `json` tag matched
case-insensitively, greedy whitespace, lazy capture, whitespace, closing
fence) at the head of the input. -/
def matchFenceAt (s : Str) : Option Str :=
  match dropLiteralCI (lc "```json") s with
  | none => none
  | some r => fenceCapture (r.dropWhile isJsWs)

/-- First position at which the fenced-JSON pattern matches. -/
def findFencedJson : Str → Option Str
  | [] => none
  | c :: rest =>
    match matchFenceAt (c :: rest) with
    | some cap => some cap
    | none => findFencedJson rest

/-- Match `/"(field)":\s*"([\s\S]*?)"/` for one field at the head of the
input: quoted field name, colon, whitespace, opening quote, then the lazy
capture up to the first quote character, which must exist. -/
def matchFieldAt (f s : Str) : Option Str :=
  match dropLiteral ('"' :: (f ++ [ '"', ':' ])) s with
  | none => none
  | some r =>
    match r.dropWhile isJsWs with
    | '"' :: r2 =>
      let cap := r2.takeWhile (· ≠ '"')
      if (r2.dropWhile (· ≠ '"')).isEmpty then none else some cap
    | _ => none

/-- Try each field alternative (in `allContentFields` order, mirroring the
regex alternation) at the head of the input. -/
def matchAnyFieldAt (s : Str) : List Str → Option Str
  | [] => none
  | f :: fs =>
    match matchFieldAt f s with
    | some cap => some cap
    | none => matchAnyFieldAt s fs

/-- First position at which any field alternative matches. -/
def findFieldValue : Str → Option Str
  | [] => none
  | c :: rest =>
    match matchAnyFieldAt (c :: rest) allContentFields with
    | some cap => some cap
    | none => findFieldValue rest

/-- Unescape a regex-captured field value: the four sequential global
replaces `\\n → \n`, `\\r → \r`, `\\t → \t`, `\\" → "` of the source. -/
def unescapeCapture (s : Str) : Str :=
  replaceAll (lc "\\\"") (lc "\"")
    (replaceAll (lc "\\t") (lc "\t")
      (replaceAll (lc "\\r") (lc "\r")
        (replaceAll (lc "\\n") (lc "\n") s)))

/-- Draft extraction (`extractDraft`): (1) parse the whole text as JSON
and look up the prioritized field names; (2) the same inside a fenced
` ```json ` block; (3) regex-extract an escaped string value for any of
the fields; (4) fall back to the input unchanged. -/
def extractDraft (content : Str) : Str :=
  let step3 : Str :=
    match findFieldValue content with
    | some cap => unescapeCapture cap
    | none => content
  let step2 : Str :=
    match findFencedJson content with
    | some inner =>
      (match jsonParse inner with
       | some (.jobj fields) =>
         (match firstStringField fields allContentFields with
          | some v => v
          | none => step3)
       | _ => step3)
    | none => step3
  match jsonParse content with
  | some (.jobj fields) =>
    (match firstStringField fields allContentFields with
     | some v => v
     | none => step2)
  | _ => step2

/-! ### Merge policy, engine selection, task slug -/

/-- Engine identifiers. -/
inductive Engine where
  | claude : Engine
  | codex : Engine
deriving DecidableEq

/-- The merge decision of `handleDualEngineStage` (source lines 669-692):
both at or above 90 picks the higher score (ties to the first slot), one
at or above 90 picks that side, both below 90 picks the higher score with
the final score being that highest sub-90 score. -/
def mergePolicy (claudeScore : Nat) (claudeResult : Option Str)
    (codexScore : Nat) (codexResult : Option Str) : Option Str × Nat :=
  if 90 ≤ claudeScore ∧ 90 ≤ codexScore then
    if codexScore ≤ claudeScore then (claudeResult, claudeScore) else (codexResult, codexScore)
  else if 90 ≤ claudeScore then (claudeResult, claudeScore)
  else if 90 ≤ codexScore then (codexResult, codexScore)
  else if codexScore ≤ claudeScore then (claudeResult, max claudeScore codexScore)
  else (codexResult, max claudeScore codexScore)

/-- Test of the first alternative of `/codex|使用\s*codex/i`: the
substring `codex`, case-insensitively. -/
def containsCodexCI : Str → Bool
  | [] => false
  | c :: rest => (dropLiteralCI (lc "codex") (c :: rest)).isSome || containsCodexCI rest

/-- Match of the second alternative `使用\s*codex` at the head. -/
def matchUseCodexAt (s : Str) : Bool :=
  match dropLiteral (lc "使用") s with
  | some r => (dropLiteralCI (lc "codex") (r.dropWhile isJsWs)).isSome
  | none => false

/-- The full regex test `/codex|使用\s*codex/i.test(objective)`. -/
def codexRegexTest : Str → Bool
  | [] => false
  | c :: rest =>
    (dropLiteralCI (lc "codex") (c :: rest)).isSome || matchUseCodexAt (c :: rest) ||
      codexRegexTest rest

/-- Collapse runs of whitespace into single hyphens (the global replace
of `\s+` by a hyphen).  The fuel is the input length; a whitespace run
consumes at least one character per step. -/
def wsRunsToDash : Nat → Str → Str
  | 0, s => s
  | _ + 1, [] => []
  | fuel + 1, c :: rest =>
    if isJsWs c then '-' :: wsRunsToDash fuel (rest.dropWhile isJsWs)
    else c :: wsRunsToDash fuel rest

/-- Collapse runs of hyphens into a single hyphen. -/
def dashRuns : Nat → Str → Str
  | 0, s => s
  | _ + 1, [] => []
  | fuel + 1, c :: rest =>
    if c = '-' then '-' :: dashRuns fuel (rest.dropWhile (· = '-'))
    else c :: dashRuns fuel rest

/-- Task slug derivation (`generateTaskSlug`): lower-case, strip
characters outside `[\w\s-]`, trim, whitespace runs to hyphens, collapse
hyphen runs, cap at 50 characters. -/
def generateTaskSlug (objective : Str) : Str :=
  let s := toLowerStr objective
  let s := s.filter (fun c => c.isAlphanum || c = '_' || isJsWs c || c = '-')
  let s := trimStr s
  let s := wsRunsToDash s.length s
  let s := dashRuns s.length s
  s.take 50

/-! ### Workflow data model -/

/-- The six fixed pipeline stages. -/
inductive Stage where
  | po : Stage
  | architect : Stage
  | sm : Stage
  | dev : Stage
  | review : Stage
  | qa : Stage
deriving DecidableEq

/-- Pipeline position of a stage. -/
def stageIdx : Stage → Nat
  | .po => 0
  | .architect => 1
  | .sm => 2
  | .dev => 3
  | .review => 4
  | .qa => 5

/-- Session states of the orchestrator. -/
inductive SessionState where
  | generating : SessionState
  | clarifying : SessionState
  | refining : SessionState
  | awaiting_confirmation : SessionState
  | awaiting_approval : SessionState
  | completed : SessionState
deriving DecidableEq

/-- Per-stage progress marker. -/
inductive StageStatus where
  | pending : StageStatus
  | in_progress : StageStatus
  | completed : StageStatus
deriving DecidableEq

/-- The relevant parts of `WORKFLOW_DEFINITION` from `master-prompt.ts`:
stage order, per-stage engine sets, per-stage artifact filenames. -/
structure WorkflowDef where
  stages : List Stage
  engines : Stage → List Engine
  artifacts : Stage → Str

/-- The concrete workflow definition. -/
def WORKFLOW_DEFINITION : WorkflowDef :=
  { stages := [.po, .architect, .sm, .dev, .review, .qa]
    engines := fun
      | .po => [.claude, .codex]
      | .architect => [.claude, .codex]
      | .sm => [.claude]
      | .dev => [.codex]
      | .review => [.codex]
      | .qa => [.codex]
    artifacts := fun
      | .po => lc "01-product-requirements.md"
      | .architect => lc "02-system-architecture.md"
      | .sm => lc "03-sprint-plan.md"
      | .dev => lc "code-implementation"
      | .review => lc "04-dev-reviewed.md"
      | .qa => lc "05-qa-report.md" }

/-- Successor stage (`getNextStage`): position of the current stage in
`WORKFLOW_DEFINITION.stages`, plus one, when in range. -/
def getNextStage (current : Stage) : Option Stage :=
  let stages := WORKFLOW_DEFINITION.stages
  let i := stages.indexOf current
  if i < stages.length - 1 then stages.get? (i + 1) else none

/-- Filesystem paths, structured by the naming scheme that produces them.
The constructors are pairwise injective images of the path strings the
source builds: `tempA` is `saveContentToFile`'s
`.bmad-task/temp/{session}/{stage}_{type}_{timestamp}.md`, `tempB` is
`saveContentReference`'s
`.bmad-task/temp/{session}/{type}-{stage}-{timestamp}.{ext}` (the type
names used contain no hyphen, so the two filename shapes never collide),
`artifact` is `saveArtifact`'s `.claude/specs/{taskName}/{filename}`. -/
inductive FPath where
  | tempA : Str → Str → Stage → Str → Nat → FPath
  | tempB : Str → Str → Str → Stage → Nat → Str → FPath
  | artifact : Str → Str → Str → FPath
deriving DecidableEq

/-- A content reference (`ContentReference`): summary prefix, path of the
durably stored full content, byte size, last-updated timestamp. -/
structure ContentReference where
  summary : Str
  file_path : FPath
  size : Nat
  last_updated : Nat
deriving DecidableEq

/-- Per-stage session data (`WorkflowSession.stages[stage]`). -/
structure StageData where
  status : StageStatus
  claude_result_ref : Option ContentReference := none
  codex_result_ref : Option ContentReference := none
  final_result_ref : Option ContentReference := none
  score : Option Nat := none
  approved : Option Bool := none
  iteration : Option Nat := none
  draft : Option Str := none
  questions : Option (List Question) := none
  answers : Option (List (Str × Str)) := none
  gaps : Option (List Str) := none
deriving DecidableEq

/-- The six per-stage records of a session. -/
structure StageMap where
  po : StageData
  architect : StageData
  sm : StageData
  dev : StageData
  review : StageData
  qa : StageData
deriving DecidableEq

/-- Read one stage record. -/
def StageMap.get (m : StageMap) : Stage → StageData
  | .po => m.po
  | .architect => m.architect
  | .sm => m.sm
  | .dev => m.dev
  | .review => m.review
  | .qa => m.qa

/-- Replace one stage record. -/
def StageMap.set (m : StageMap) (s : Stage) (d : StageData) : StageMap :=
  match s with
  | .po => { m with po := d }
  | .architect => { m with architect := d }
  | .sm => { m with sm := d }
  | .dev => { m with dev := d }
  | .review => { m with review := d }
  | .qa => { m with qa := d }

/-- A workflow session (`WorkflowSession`). -/
structure Session where
  session_id : Str
  task_name : Str
  cwd : Str
  objective : Str
  current_stage : Stage
  current_state : SessionState
  stages : StageMap
  artifacts : List FPath
  created_at : Nat
  updated_at : Nat
deriving DecidableEq

/-- Dynamic engine selection (`getEnginesForStage`): for the two gated
stages the codex regex on the objective decides between both engines and
claude only; other stages use the static workflow definition. -/
def getEnginesForStage (session : Session) (stage : Stage) : List Engine :=
  if stage = .po ∨ stage = .architect then
    if codexRegexTest session.objective then [.claude, .codex] else [.claude]
  else WORKFLOW_DEFINITION.engines stage

/-- Association-list lookup by key (first match). -/
def lookupAssoc {α : Type} (l : List (Str × α)) (k : Str) : Option α :=
  match l with
  | [] => none
  | kv :: rest => if kv.1 = k then some kv.2 else lookupAssoc rest k

/-- Association-list update: replace the value of an existing key in
place, or append a new binding (the semantics of both `Map.set` and a
whole-file overwrite of one path). -/
def setAssoc {α : Type} (l : List (Str × α)) (k : Str) (v : α) : List (Str × α) :=
  match l with
  | [] => [(k, v)]
  | kv :: rest => if kv.1 = k then (k, v) :: rest else kv :: setAssoc rest k v

/-- Filesystem lookup. -/
def lookupFs (l : List (FPath × Str)) (p : FPath) : Option Str :=
  match l with
  | [] => none
  | kv :: rest => if kv.1 = p then some kv.2 else lookupFs rest p

/-- Filesystem write (`fs.writeFileSync`): overwrite in place or create. -/
def writeFs (l : List (FPath × Str)) (p : FPath) (content : Str) : List (FPath × Str) :=
  match l with
  | [] => [(p, content)]
  | kv :: rest => if kv.1 = p then (p, content) :: rest else kv :: writeFs rest p content

/-- The whole observable world: the in-memory session table, the durable
session records (the `session-{id}.json` files), the content files, and
the millisecond clock.  The clock is ticked at every file save, modelling
the assumption that consecutive saves carry distinct timestamps. -/
structure World where
  sessions : List (Str × Session)
  disk : List (Str × Session)
  fs : List (FPath × Str)
  clock : Nat
deriving DecidableEq

/-- The empty initial world. -/
def World.init : World := { sessions := [], disk := [], fs := [], clock := 0 }

/-- Tool responses, reduced to what the claims inspect: a structured
failure with its message, or a success payload tagged with the `state`
field it reports (when it reports one). -/
inductive Resp where
  | err : Str → Resp
  | ok : Option SessionState → Resp
deriving DecidableEq

/-- The structured failure payload (`errorResponse`). -/
def errorResponse (msg : Str) : Resp := .err msg

/-- Contents handed to `saveContentReference`: a string, a question list,
a string list, or a string-to-string record. -/
inductive RefContent where
  | txt : Str → RefContent
  | qs : List Question → RefContent
  | strs : List Str → RefContent
  | pairs : List (Str × Str) → RefContent

/-- Minimal JSON string escaping used by the renderings below. -/
def jsonEscape (s : Str) : Str :=
  s.flatMap (fun c =>
    if c = '"' then ['\\', '"']
    else if c = '\\' then ['\\', '\\']
    else if c = '\n' then ['\\', 'n']
    else if c = '\r' then ['\\', 'r']
    else if c = '\t' then ['\\', 't']
    else [c])

/-- Join strings with a separator. -/
def joinWith (sep : Str) : List Str → Str
  | [] => []
  | [x] => x
  | x :: rest => x ++ sep ++ joinWith sep rest

/-- File content written for a reference (`JSON.stringify(content)` for
non-strings).  The pretty-printing of the source is not reproduced: these
files are write-only for the orchestrator (never read back), so only the
fact of the write matters to the claims. -/
def renderRefContent : RefContent → Str
  | .txt s => s
  | .qs l =>
    '[' :: joinWith (lc ",")
      (l.map (fun q =>
        lc "\x7b\"id\":\"" ++ jsonEscape q.id ++ lc "\",\"question\":\"" ++
          jsonEscape q.question ++ lc "\"\x7d")) ++ [']']
  | .strs l => '[' :: joinWith (lc ",") (l.map (fun s => '"' :: jsonEscape s ++ ['"'])) ++ [']']
  | .pairs l =>
    '\x7b' :: joinWith (lc ",")
      (l.map (fun kv => '"' :: jsonEscape kv.1 ++ lc "\":\"" ++ jsonEscape kv.2 ++ ['"'])) ++ ['\x7d']

/-- Summary of reference content (`generateSummary`): character prefix
for strings, item count for arrays, field count and first key names for
records. -/
def generateSummary : RefContent → Str
  | .txt s => s.take 200 ++ (if 200 < s.length then lc "..." else [])
  | .qs l => natToStr l.length ++ lc " items"
  | .strs l => natToStr l.length ++ lc " items"
  | .pairs l =>
    natToStr l.length ++ lc " fields: " ++ joinWith (lc ", ") ((l.map Prod.fst).take 3) ++
      (if 3 < l.length then lc "..." else [])

/-- Build a content reference for `content` stored at `p` at time `ts`:
summary prefix with ellipsis, byte size, timestamp. -/
def mkRef (content : Str) (p : FPath) (ts : Nat) : ContentReference :=
  { summary := content.take 200 ++ (if 200 < content.length then lc "..." else [])
    file_path := p
    size := utf8Len content
    last_updated := ts }

/-- The answers part of the `hasBeenClarified` test: a recorded answer
map that is non-empty and has some non-blank value. -/
def answersClarified (answers : Option (List (Str × Str))) : Bool :=
  match answers with
  | some l => !l.isEmpty && l.any (fun p => !(trimStr p.2).isEmpty)
  | none => false

/-! ### Persistence primitives -/

/-- Save a large text to a timestamped temp file and return a reference
(`saveContentToFile`).  The clock tick models the fresh millisecond
timestamp in the generated filename. -/
def saveContentToFile (w : World) (sessionId cwd contentType : Str) (stage : Stage)
    (content : Str) : ContentReference × World :=
  let ts := w.clock
  let p := FPath.tempA cwd sessionId stage contentType ts
  let w := { w with fs := writeFs w.fs p content, clock := w.clock + 1 }
  (mkRef content p ts, w)

/-- Save arbitrary content to a timestamped temp file and return a
reference (`saveContentReference`). -/
def saveContentReference (w : World) (sessionId cwd contentType : Str) (stage : Stage)
    (content : RefContent) (ext : Str) : ContentReference × World :=
  let ts := w.clock
  let p := FPath.tempB cwd sessionId contentType stage ts ext
  let fileContent := renderRefContent content
  let w := { w with fs := writeFs w.fs p fileContent, clock := w.clock + 1 }
  ({ summary := generateSummary content
     file_path := p
     size := utf8Len fileContent
     last_updated := ts }, w)

/-- Persist a session record (`saveSession`).  The in-memory table holds
the same object the operations mutate, so the memory entry and the
durable record are updated together; `updated_at` is refreshed. -/
def saveSession (w : World) (s : Session) : World :=
  let s2 := { s with updated_at := w.clock }
  { w with
    sessions := setAssoc w.sessions s.session_id s2
    disk := setAssoc w.disk s.session_id s2 }

/-- Write the permanent artifact of a stage (`saveArtifact`): the content
is defensively re-extracted, then written to the fixed per-stage filename
under the directory keyed by the session's task name.  The relative path
is returned.  (The source re-finds the session by id and throws when it
is absent; the model's callers always pass the live session.) -/
def saveArtifact (w : World) (session : Session) (stage : Stage) (content : Str) :
    FPath × World :=
  let cleanedContent := extractDraft content
  let p := FPath.artifact session.cwd session.task_name (WORKFLOW_DEFINITION.artifacts stage)
  (p, { w with fs := writeFs w.fs p cleanedContent })

/-! ### Operations -/

/-- The initial stage records created by `start`: the first stage is in
progress at iteration 1, the rest are pending. -/
def initialStages : StageMap :=
  { po := { status := .in_progress, iteration := some 1 }
    architect := { status := .pending }
    sm := { status := .pending }
    dev := { status := .pending }
    review := { status := .pending }
    qa := { status := .pending } }

/-- Start a new workflow (`start`).  The fresh `randomUUID` is modelled
as an explicit argument.  `ensureUniqueTaskName` (a directory-existence
probe that suffixes colliding slugs) is modelled as the identity on the
base slug, and the append-only task-mapping file is not modelled: neither
is ever read back into session logic. -/
def start (w : World) (sessionId cwd objective : Str) : World × Resp :=
  let taskName := generateTaskSlug objective
  let session : Session :=
    { session_id := sessionId
      task_name := taskName
      cwd := cwd
      objective := objective
      current_stage := .po
      current_state := .generating
      stages := initialStages
      artifacts := []
      created_at := w.clock
      updated_at := w.clock }
  let w := { w with sessions := setAssoc w.sessions sessionId session }
  let w := saveSession w session
  (w, .ok (some .generating))

/-- Dual-engine stage handling (`handleDualEngineStage`): scoring,
question/gap extraction and merge, the first-iteration clarifying
override, the merge policy, and the score gate.  The diagnostic
`analyzePRDQuality` output and the conditional `user_message` reference
feed only the response text and are not modelled. -/
def handleDualEngineStage (w : World) (session : Session) (stage : Stage)
    (claudeResult codexResult : Option Str) : World × Resp :=
  let stageData := session.stages.get stage
  let claudeScore := scoreContent (claudeResult.getD [])
  let codexScore := scoreContent (codexResult.getD [])
  let claudeQuestions := extractQuestions (claudeResult.getD [])
  let codexQuestions := extractQuestions (codexResult.getD [])
  let claudeGaps := extractGaps (claudeResult.getD [])
  let codexGaps := extractGaps (codexResult.getD [])
  let mergedQuestions := mergeQuestions claudeQuestions codexQuestions
  let mergedGaps := dedupStrs (claudeGaps ++ codexGaps)
  let isInitialAnalysis := stageData.iteration.getD 1 == 1 && stageData.answers.isNone
  if isInitialAnalysis && !mergedQuestions.isEmpty then
    let draftSource := if codexScore ≤ claudeScore then claudeResult else codexResult
    let draft := extractDraft (draftSource.getD [])
    let stageData :=
      { stageData with
        draft := some draft
        questions := some mergedQuestions
        gaps := some mergedGaps
        score := some (max claudeScore codexScore) }
    let session :=
      { session with
        stages := session.stages.set stage stageData
        current_state := .clarifying }
    let w := saveSession w session
    let (_qref, w) := saveContentReference w session.session_id session.cwd (lc "questions")
      stage (.qs mergedQuestions) (lc "json")
    let (_gref, w) := saveContentReference w session.session_id session.cwd (lc "gaps")
      stage (.strs mergedGaps) (lc "json")
    let (_dref, w) := saveContentReference w session.session_id session.cwd (lc "draft")
      stage (.txt draft) (lc "md")
    (w, .ok (some .clarifying))
  else
    let merged := mergePolicy claudeScore claudeResult codexScore codexResult
    let finalResult := merged.1
    let finalScore := merged.2
    let cleaned := extractDraft (finalResult.getD [])
    let (artifactPath, w) := saveArtifact w session stage cleaned
    let stageData :=
      { stageData with
        final_result_ref := some (mkRef cleaned artifactPath w.clock)
        score := some finalScore }
    let session := { session with stages := session.stages.set stage stageData }
    let w := saveSession w session
    if 90 ≤ finalScore then
      let session := { session with current_state := .awaiting_confirmation }
      let w := saveSession w session
      (w, .ok (some .awaiting_confirmation))
    else
      let iteration := stageData.iteration.getD 1 + 1
      let stageData := { stageData with iteration := some iteration }
      let hasBeenClarified := 2 < iteration || answersClarified stageData.answers
      if hasBeenClarified then
        let session :=
          { session with
            stages := session.stages.set stage stageData
            current_state := .refining }
        let w := saveSession w session
        (w, .ok (some .refining))
      else if !mergedQuestions.isEmpty then
        let stageData :=
          { stageData with
            draft := finalResult
            questions := some mergedQuestions
            gaps := some mergedGaps }
        let session :=
          { session with
            stages := session.stages.set stage stageData
            current_state := .clarifying }
        let w := saveSession w session
        let (_qref, w) := saveContentReference w session.session_id session.cwd (lc "questions")
          stage (.qs mergedQuestions) (lc "json")
        let (_gref, w) := saveContentReference w session.session_id session.cwd (lc "gaps")
          stage (.strs mergedGaps) (lc "json")
        let (_dref, w) := saveContentReference w session.session_id session.cwd (lc "draft")
          stage (.txt (finalResult.getD [])) (lc "md")
        (w, .ok (some .clarifying))
      else
        let session :=
          { session with
            stages := session.stages.set stage stageData
            current_state := .refining }
        let w := saveSession w session
        (w, .ok (some .refining))

/-- Single-engine stage handling (`handleSingleEngineStage`): save the
result as final reference and artifact, complete the stage, then either
await approval (sm) or auto-advance / complete the workflow. -/
def handleSingleEngineStage (w : World) (session : Session) (stage : Stage)
    (result : Str) : World × Resp :=
  let stageData := session.stages.get stage
  let (ref, w) := saveContentToFile w session.session_id session.cwd (lc "final_result")
    stage result
  let stageData := { stageData with final_result_ref := some ref }
  let (artifactPath, w) := saveArtifact w session stage result
  let session := { session with artifacts := session.artifacts ++ [artifactPath] }
  let stageData := { stageData with status := .completed }
  let session := { session with stages := session.stages.set stage stageData }
  if stage = .sm then
    let session := { session with current_state := .awaiting_approval }
    (saveSession w session, .ok (some .awaiting_approval))
  else
    match getNextStage stage with
    | some nextStage =>
      let session :=
        { session with
          current_stage := nextStage
          current_state := .generating
          stages := session.stages.set nextStage
            { session.stages.get nextStage with status := .in_progress } }
      (saveSession w session, .ok (some .generating))
    | none =>
      let session := { session with current_state := .completed }
      (saveSession w session, .ok (some .completed))

/-- The candidate-reference storage prefix of `submit`: truthy candidate
texts are saved to timestamped temp files and recorded on the stage
record. -/
def storeResultRefs (w : World) (sessionId : Str) (session : Session) (stage : Stage)
    (claudeResult codexResult : Option Str) : StageData × World :=
  let stageData := session.stages.get stage
  let r1 :=
    if !(claudeResult.getD []).isEmpty then
      let saved := saveContentToFile w sessionId session.cwd (lc "claude_result")
        stage (claudeResult.getD [])
      ({ stageData with claude_result_ref := some saved.1 }, saved.2)
    else (stageData, w)
  let r2 :=
    if !(codexResult.getD []).isEmpty then
      let saved := saveContentToFile r1.2 sessionId session.cwd (lc "codex_result")
        stage (codexResult.getD [])
      ({ r1.1 with codex_result_ref := some saved.1 }, saved.2)
    else r1
  r2

/-- Submit stage results (`submit`): store the supplied candidate texts
as references, persist, and dispatch to the dual- or single-engine
handler.  (For a single-engine stage with an absent result the source's
non-null assertion would make `saveContentToFile` throw; the model passes
the empty string — no claim exercises that path.) -/
def submit (w : World) (sessionId : Str) (stage : Stage)
    (claudeResult codexResult : Option Str) : World × Resp :=
  match lookupAssoc w.sessions sessionId with
  | none => (w, errorResponse (lc "Session not found"))
  | some session =>
    let res := storeResultRefs w sessionId session stage claudeResult codexResult
    let stageData := res.1
    let w := res.2
    let session := { session with stages := session.stages.set stage stageData }
    let w := saveSession w session
    if stage = .po ∨ stage = .architect then
      handleDualEngineStage w session stage claudeResult codexResult
    else if stage = .sm then
      handleSingleEngineStage w session stage (claudeResult.getD [])
    else
      handleSingleEngineStage w session stage (codexResult.getD [])

/-- Approve the current stage (`approve`): on approval record the flag
and auto-advance (or complete the workflow on the last stage); on
rejection return to refining with the feedback echoed. -/
def approve (w : World) (sessionId : Str) (approved : Bool) (_feedback : Option Str) :
    World × Resp :=
  match lookupAssoc w.sessions sessionId with
  | none => (w, errorResponse (lc "Session not found"))
  | some session =>
    let currentStage := session.current_stage
    let stageData := session.stages.get currentStage
    if approved then
      let stageData := { stageData with approved := some true }
      let session := { session with stages := session.stages.set currentStage stageData }
      match getNextStage currentStage with
      | some nextStage =>
        let session :=
          { session with
            current_stage := nextStage
            current_state := .generating
            stages := session.stages.set nextStage
              { session.stages.get nextStage with status := .in_progress } }
        (saveSession w session, .ok (some .generating))
      | none =>
        let session := { session with current_state := .completed }
        (saveSession w session, .ok (some .completed))
    else
      let session := { session with current_state := .refining }
      (saveSession w session, .ok (some .refining))

/-- Normalisation of the `answers` argument (`answer`): a string is
parsed as JSON (failures and non-objects degrade to the empty record), a
record has its values stringified and trimmed. -/
def normalizeAnswers (input : Sum Str (List (Str × Str))) : List (Str × Str) :=
  match input with
  | .inl raw =>
    (match jsonParse raw with
     | some (.jobj fields) =>
       fields.map (fun kv => (kv.1, trimStr (match kv.2 with | .jnull => [] | v => jsToString v)))
     | some (.jarr items) =>
       items.enum.map (fun p => (natToStr p.1, trimStr (match p.2 with | .jnull => [] | v => jsToString v)))
     | _ => [])
  | .inr pairs => pairs.map (fun kv => (kv.1, trimStr kv.2))

/-- The body of `answer` once a session has been obtained: store the
normalised answers on the current stage, write the answers/questions
references, and move to refining. -/
def answerGo (w : World) (session : Session)
    (answersInput : Sum Str (List (Str × Str))) : World × Resp :=
  let currentStage := session.current_stage
  let stageData := session.stages.get currentStage
  let normalizedAnswers := normalizeAnswers answersInput
  let stageData := { stageData with answers := some normalizedAnswers }
  let (_aref, w) := saveContentReference w session.session_id session.cwd (lc "user_answers")
    currentStage (.pairs normalizedAnswers) (lc "json")
  let (_qref, w) := saveContentReference w session.session_id session.cwd (lc "questions")
    currentStage (.qs (stageData.questions.getD [])) (lc "json")
  let session :=
    { session with
      stages := session.stages.set currentStage stageData
      current_state := .refining }
  (saveSession w session, .ok (some .refining))

/-- Answer clarification questions (`answer`).  A session missing from
memory is rehydrated from its durable record (the source reads
`session-{id}.json` under the process working directory; the model's
durable store is keyed by session id). -/
def answer (w : World) (sessionId : Str)
    (answersInput : Sum Str (List (Str × Str))) : World × Resp :=
  match lookupAssoc w.sessions sessionId with
  | some session => answerGo w session answersInput
  | none =>
    match lookupAssoc w.disk sessionId with
    | some session =>
      answerGo { w with sessions := setAssoc w.sessions sessionId session } session answersInput
    | none => (w, errorResponse (lc "Session not found"))

/-- Confirm or reject the pending document (`confirmSave`).  A rejection
returns to clarifying, re-surfacing the stored questions/gaps/draft; a
confirmation re-reads the final reference, writes the permanent artifact,
completes the stage and advances.  A missing file under the final
reference makes `readFileSync` throw in the source; the model surfaces
that as a failure response with no state change. -/
def confirmSave (w : World) (sessionId : Str) (confirmed : Bool) : World × Resp :=
  match lookupAssoc w.sessions sessionId with
  | none => (w, errorResponse (lc "Session not found"))
  | some session =>
    let currentStage := session.current_stage
    let stageData := session.stages.get currentStage
    if !confirmed then
      let session := { session with current_state := .clarifying }
      let w := saveSession w session
      let (_qref, w) := saveContentReference w session.session_id session.cwd (lc "questions")
        currentStage (.qs (stageData.questions.getD [])) (lc "json")
      let (_gref, w) := saveContentReference w session.session_id session.cwd (lc "gaps")
        currentStage (.strs (stageData.gaps.getD [])) (lc "json")
      let (_dref, w) := saveContentReference w session.session_id session.cwd (lc "draft")
        currentStage (.txt (stageData.draft.getD [])) (lc "md")
      (w, .ok (some .clarifying))
    else
      match stageData.final_result_ref with
      | none => (w, errorResponse (lc "No final result to save"))
      | some ref =>
        match lookupFs w.fs ref.file_path with
        | none => (w, errorResponse (lc "ENOENT"))
        | some finalResult =>
          let (artifactPath, w) := saveArtifact w session currentStage finalResult
          let session :=
            { session with
              artifacts := session.artifacts ++ [artifactPath]
              stages := session.stages.set currentStage
                { stageData with status := .completed } }
          match getNextStage currentStage with
          | some nextStage =>
            let session :=
              { session with
                current_stage := nextStage
                current_state := .generating
                stages := session.stages.set nextStage
                  { session.stages.get nextStage with status := .in_progress } }
            (saveSession w session, .ok (some .generating))
          | none =>
            let session := { session with current_state := .completed }
            (saveSession w session, .ok (some .completed))

/-- The `confirm` action is an alias for `confirm_save`. -/
def confirm (w : World) (sessionId : Str) (confirmed : Bool) : World × Resp :=
  confirmSave w sessionId confirmed

/-- Query session state (`status`): a pure read returning the lightweight
projection (reduced here to the reported state tag). -/
def statusOp (w : World) (sessionId : Str) : World × Resp :=
  match lookupAssoc w.sessions sessionId with
  | none => (w, errorResponse (lc "Session not found"))
  | some session => (w, .ok (some session.current_state))

/-! ### Operation sequences -/

/-- One caller-visible operation with its arguments. -/
inductive Op where
  | start : Str → Str → Str → Op
  | submit : Str → Stage → Option Str → Option Str → Op
  | answer : Str → Sum Str (List (Str × Str)) → Op
  | confirm : Str → Bool → Op
  | approve : Str → Bool → Option Str → Op
  | statusQ : Str → Op

/-- World transition of one operation. -/
def step (w : World) : Op → World
  | .start sid cwd objective => (start w sid cwd objective).1
  | .submit sid stage cr xr => (submit w sid stage cr xr).1
  | .answer sid a => (answer w sid a).1
  | .confirm sid c => (confirmSave w sid c).1
  | .approve sid a f => (approve w sid a f).1
  | .statusQ sid => (statusOp w sid).1

/-- Run a sequence of operations. -/
def run (w : World) : List Op → World
  | [] => w
  | op :: ops => run (step w op) ops

/-- Discipline predicate on one operation: `submit` targets the session's
current stage, and `approve(true)` is only issued once the current stage
is completed (its intended `awaiting_approval` moment).  All other
operations are unrestricted. -/
def disciplinedB (w : World) : Op → Bool
  | .submit sid stage _ _ =>
    (match lookupAssoc w.sessions sid with
     | some s => stage == s.current_stage
     | none => true)
  | .approve sid approved _ =>
    !approved ||
      (match lookupAssoc w.sessions sid with
       | some s => (s.stages.get s.current_stage).status == .completed
       | none => true)
  | _ => true

/-- A trace all of whose steps are disciplined. -/
inductive DTrace : World → List Op → Prop where
  | nil : ∀ w, DTrace w []
  | cons : ∀ w op ops, disciplinedB w op = true → DTrace (step w op) ops → DTrace w (op :: ops)

/-! ### Invariants -/

/-- Structural stage-ordering invariant of a session: every stage before
the current one is completed, every stage after it is pending, and the
current stage itself is in progress or completed. -/
def StageOrderInv (s : Session) : Prop :=
  (∀ t, stageIdx t < stageIdx s.current_stage → (s.stages.get t).status = .completed) ∧
  (∀ t, stageIdx s.current_stage < stageIdx t → (s.stages.get t).status = .pending) ∧
  ((s.stages.get s.current_stage).status = .in_progress ∨
   (s.stages.get s.current_stage).status = .completed)

/-- The invariant over the whole world: every session record, in memory
or durable, is keyed by its own id and satisfies the stage ordering. -/
def WorldInv (w : World) : Prop :=
  (∀ sid s, lookupAssoc w.sessions sid = some s → s.session_id = sid ∧ StageOrderInv s) ∧
  (∀ sid s, lookupAssoc w.disk sid = some s → s.session_id = sid ∧ StageOrderInv s)

/-- No two distinct stages are simultaneously in progress. -/
def AtMostOneInProgress (s : Session) : Prop :=
  ∀ t u, (s.stages.get t).status = .in_progress → (s.stages.get u).status = .in_progress →
    t = u

/-- A stage shows in-progress or completed only once all earlier stages
are completed. -/
def LaterOnlyAfterEarlier (s : Session) : Prop :=
  ∀ t, ((s.stages.get t).status = .in_progress ∨ (s.stages.get t).status = .completed) →
    ∀ u, stageIdx u < stageIdx t → (s.stages.get u).status = .completed

/-! ### Concrete scenarios for witnesses and counterexamples -/

/-- A placeholder session used only as the default of `Option.getD` in
closed statements whose lookups are in fact always `some`. -/
def defaultSession : Session :=
  { session_id := []
    task_name := []
    cwd := []
    objective := []
    current_stage := .po
    current_state := .generating
    stages := initialStages
    artifacts := []
    created_at := 0
    updated_at := 0 }

/-- A placeholder content reference for `Option.getD`. -/
def defaultRef : ContentReference :=
  { summary := [], file_path := FPath.artifact [] [] [], size := 0, last_updated := 0 }

/-- Demo session id. -/
def demoSid : Str := lc "s1"

/-- World after `start` with a plain objective. -/
def demoW1 : World := (start World.init demoSid (lc "/w") (lc "demo task")).1

/-- The started session. -/
def demoS1 : Session := (lookupAssoc demoW1.sessions demoSid).getD defaultSession

/-- A candidate text carrying a labelled 95/100 score and no questions. -/
def demoHighBody : Str := lc "Quality Score: 95/100 body A"

/-- A second distinct high-scoring candidate text. -/
def demoHighBodyB : Str := lc "Quality Score: 95/100 body B"

/-- World after submitting the high-scoring candidate for `po`:
the session awaits confirmation with a final reference. -/
def demoW2 : World := (submit demoW1 demoSid .po (some demoHighBody) none).1

/-- The session awaiting confirmation. -/
def demoS2 : Session := (lookupAssoc demoW2.sessions demoSid).getD defaultSession

/-- The final reference attached by the merge path of the first submit. -/
def demoRef2 : ContentReference := (demoS2.stages.po.final_result_ref).getD defaultRef

/-- The content stored under the final reference. -/
def demoContent2 : Str := (lookupFs demoW2.fs demoRef2.file_path).getD []

/-- World after a second high-scoring submit for the same stage. -/
def demoW2b : World := (submit demoW2 demoSid .po (some demoHighBodyB) none).1

/-- A first-iteration candidate with an embedded 95 self-score and a
non-empty questions array. -/
def demoQuestionBody : Str :=
  lc "\x7b\"quality_score\": 95, \"questions\": [\x7b\"id\": \"q1\", \"question\": \"What is X?\"\x7d]\x7d"

/-- The nested-payload input on which draft extraction is not idempotent:
a JSON document whose `draft` field itself contains a JSON document with
a `draft` field. -/
def nestedDraftInput : Str := lc "\x7b\"draft\":\"\x7b\\\"draft\\\":\\\"A\\\"\x7d\"\x7d"

/-- The undisciplined trace refuting the unrestricted stage invariant:
an approval issued directly after `start`. -/
def c3CounterTrace : List Op :=
  [.start demoSid (lc "/w") (lc "x"), .approve demoSid true none]

/-- The world reached by the undisciplined counterexample trace. -/
def c3CounterWorld : World := run World.init c3CounterTrace

/-- The session it leaves behind. -/
def c3CounterSession : Session :=
  (lookupAssoc c3CounterWorld.sessions demoSid).getD defaultSession

/-- The disciplined trace used by the amended-claim witness. -/
def c3WitnessTrace : List Op :=
  [.start demoSid (lc "/w") (lc "demo task"), .submit demoSid .po (some demoHighBody) none]

/-- The session reached by the disciplined witness trace. -/
def c3WitnessSession : Session :=
  (lookupAssoc (run World.init c3WitnessTrace).sessions demoSid).getD defaultSession

/-! ## Helper lemmas -/

theorem lookup_set_self {α : Type} (l : List (Str × α)) (k : Str) (v : α) :
    lookupAssoc (setAssoc l k v) k = some v := by
  induction l with
  | nil => simp [setAssoc, lookupAssoc]
  | cons kv rest ih =>
    by_cases h : kv.1 = k <;> simp [setAssoc, lookupAssoc, h, ih]

theorem lookup_set_ne {α : Type} (l : List (Str × α)) (k k' : Str) (v : α) (h : k' ≠ k) :
    lookupAssoc (setAssoc l k v) k' = lookupAssoc l k' := by
  induction l with
  | nil => simp [setAssoc, lookupAssoc, Ne.symm h]
  | cons kv rest ih =>
    by_cases hk : kv.1 = k
    · subst hk
      simp [setAssoc, lookupAssoc, Ne.symm h]
    · simp only [setAssoc, if_neg hk, lookupAssoc]
      by_cases hk' : kv.1 = k' <;> simp [hk', ih]

theorem set_set_same {α : Type} (l : List (Str × α)) (k : Str) (a b : α) :
    setAssoc (setAssoc l k a) k b = setAssoc l k b := by
  induction l with
  | nil => simp [setAssoc]
  | cons kv rest ih =>
    by_cases h : kv.1 = k <;> simp [setAssoc, h, ih]

theorem StageMap.get_set_eval (m : StageMap) (t u : Stage) (d : StageData) :
    (m.set t d).get u = if u = t then d else m.get u := by
  cases t <;> cases u <;> simp [StageMap.set, StageMap.get]

theorem stageIdx_inj : ∀ t u : Stage, stageIdx t = stageIdx u → t = u := by
  intro t u
  cases t <;> cases u <;> decide

theorem getNextStage_succ : ∀ t n : Stage, getNextStage t = some n →
    stageIdx n = stageIdx t + 1 := by
  intro t n
  cases t <;> cases n <;> decide

theorem getNextStage_ne (t n : Stage) (h : getNextStage t = some n) : n ≠ t := by
  intro he
  have := getNextStage_succ t n h
  subst he
  omega

theorem storeResultRefs_sessions (w : World) (sid : Str) (s : Session) (stage : Stage)
    (cr xr : Option Str) :
    (storeResultRefs w sid s stage cr xr).2.sessions = w.sessions := by
  unfold storeResultRefs
  split <;> split <;> rfl

theorem storeResultRefs_disk (w : World) (sid : Str) (s : Session) (stage : Stage)
    (cr xr : Option Str) :
    (storeResultRefs w sid s stage cr xr).2.disk = w.disk := by
  unfold storeResultRefs
  split <;> split <;> rfl

theorem storeResultRefs_status (w : World) (sid : Str) (s : Session) (stage : Stage)
    (cr xr : Option Str) :
    (storeResultRefs w sid s stage cr xr).1.status = (s.stages.get stage).status := by
  unfold storeResultRefs
  split <;> split <;> rfl

theorem storeResultRefs_iteration (w : World) (sid : Str) (s : Session) (stage : Stage)
    (cr xr : Option Str) :
    (storeResultRefs w sid s stage cr xr).1.iteration = (s.stages.get stage).iteration := by
  unfold storeResultRefs
  split <;> split <;> rfl

theorem storeResultRefs_answers (w : World) (sid : Str) (s : Session) (stage : Stage)
    (cr xr : Option Str) :
    (storeResultRefs w sid s stage cr xr).1.answers = (s.stages.get stage).answers := by
  unfold storeResultRefs
  split <;> split <;> rfl

/-! ## Claim C4: draft extraction is not idempotent (code bug) -/

/-- Claim C4.  The claim states that `extractDraft` is idempotent.  It is
not: on a JSON document whose `draft` field itself contains a serialized
JSON document with a `draft` field, the first application extracts the
inner document and the second application extracts again.  The source's
own comment on the save path asserts idempotence, so this is recorded as
a code bug; this theorem evaluates the code at the failing input. -/
theorem claim_C4_extractDraft_not_idempotent :
    extractDraft nestedDraftInput = lc "\x7b\"draft\":\"A\"\x7d" ∧
    extractDraft (extractDraft nestedDraftInput) = lc "A" ∧
    extractDraft (extractDraft nestedDraftInput) ≠ extractDraft nestedDraftInput := by
  refine ⟨rfl, rfl, ?_⟩
  decide

/-! ## Claim C5: merge policy on the both-below-90 branch -/

/-- Claim C5.  When both scores are below 90 the merge policy picks the
higher-scoring candidate (ties go to the first, Claude, slot), the final
score is that highest sub-90 score — below the gate, signalling another
iteration — and the outcome score is invariant under swapping the
arguments.  Determinism is immediate since `mergePolicy` is a function. -/
theorem claim_C5_merge_both_below_90 (a b : Nat) (ra rb : Option Str)
    (ha : a < 90) (hb : b < 90) :
    (mergePolicy a ra b rb).1 = (if b ≤ a then ra else rb) ∧
    (mergePolicy a ra b rb).2 = max a b ∧
    (mergePolicy a ra b rb).2 < 90 ∧
    (mergePolicy a ra b rb).2 = (mergePolicy b rb a ra).2 ∧
    (a = b → (mergePolicy a ra b rb).1 = ra) := by
  have h1 : ¬ (90 ≤ a) := by omega
  have h2 : ¬ (90 ≤ b) := by omega
  unfold mergePolicy
  refine ⟨?_, ?_, ?_, ?_, ?_⟩
  · by_cases hle : b ≤ a <;> simp [h1, h2, hle]
  · by_cases hle : b ≤ a <;> simp [h1, h2, hle]
  · by_cases hle : b ≤ a <;> simp [h1, h2, hle] <;> omega

  · by_cases hle : b ≤ a <;> by_cases hle2 : a ≤ b <;> simp [h1, h2, hle, hle2] <;> omega
  · intro he
    subst he
    simp [h1]

/-- Witness for claim C5 at scores 50 and 70. -/
theorem claim_C5_witness :
    (mergePolicy 50 (some (lc "a")) 70 (some (lc "b"))).1 = some (lc "b") ∧
    (mergePolicy 50 (some (lc "a")) 70 (some (lc "b"))).2 = 70 := by
  have h := claim_C5_merge_both_below_90 50 70 (some (lc "a")) (some (lc "b"))
    (by decide) (by decide)
  refine ⟨?_, ?_⟩
  · rw [h.1]
    decide
  · rw [h.2.1]
    decide

/-! ## Claim C8: score extraction is total and the fallback is bounded -/

theorem estimate_bounds (c : Str) :
    60 ≤ estimateScoreByContent c ∧ estimateScoreByContent c ≤ 85 := by
  unfold estimateScoreByContent
  refine ⟨?_, ?_⟩ <;> (dsimp only; split <;> split <;> omega)

/-- Claim C8.  `scoreContent` always returns a value at most 100 (being a
natural number it is at least 0), and whenever neither the structured
`quality_score` field nor the labelled score pattern yields an in-range
value, the result is the fallback estimate, which lies in [60, 85]. -/
theorem claim_C8_scoreContent_total (content : Str) :
    scoreContent content ≤ 100 ∧
    ((∀ v, lastQualityScore content = some v → 100 < v) →
     (∀ v, firstTextScore content = some v → 100 < v) →
     scoreContent content = estimateScoreByContent content ∧
     60 ≤ scoreContent content ∧ scoreContent content ≤ 85) := by
  have hb := estimate_bounds content
  constructor
  · unfold scoreContent
    repeat' split
    all_goals omega
  · intro h1 h2
    unfold scoreContent
    split
    next v hv =>
      have hv100 := h1 v hv
      rw [if_neg (by omega)]
      split
      next v2 hv2 =>
        have := h2 v2 hv2
        rw [if_neg (by omega)]
        exact ⟨rfl, hb.1, hb.2⟩
      next => exact ⟨rfl, hb.1, hb.2⟩
    next =>
      split
      next v2 hv2 =>
        have := h2 v2 hv2
        rw [if_neg (by omega)]
        exact ⟨rfl, hb.1, hb.2⟩
      next => exact ⟨rfl, hb.1, hb.2⟩

/-- Witness for claim C8 on an input with no score patterns at all. -/
theorem claim_C8_witness :
    scoreContent (lc "hello") = estimateScoreByContent (lc "hello") ∧
    60 ≤ scoreContent (lc "hello") ∧ scoreContent (lc "hello") ≤ 85 ∧
    scoreContent (lc "hello") ≤ 100 := by
  have h := claim_C8_scoreContent_total (lc "hello")
  have h2 := h.2
    (fun v hv => by rw [show lastQualityScore (lc "hello") = none from rfl] at hv; simp at hv)
    (fun v hv => by rw [show firstTextScore (lc "hello") = none from rfl] at hv; simp at hv)
  exact ⟨h2.1, h2.2.1, h2.2.2, h.1⟩

/-! ## Claim C10: engine selection -/

theorem contains_of_suffix_codex (s : Str) : ∀ t, t <:+ s →
    (dropLiteralCI (lc "codex") t).isSome = true → containsCodexCI s = true := by
  induction s with
  | nil =>
    intro t hsuf h
    have ht := List.suffix_nil.mp hsuf
    subst ht
    exact absurd h (by decide)
  | cons c rest ih =>
    intro t hsuf h
    rcases List.suffix_cons_iff.mp hsuf with he | hsuf2
    · subst he
      simp only [containsCodexCI, h, Bool.true_or]
    · simp only [containsCodexCI, ih t hsuf2 h, Bool.or_true]

theorem matchUse_contains (s : Str) (h : matchUseCodexAt s = true) :
    containsCodexCI s = true := by
  unfold matchUseCodexAt at h
  cases hd : dropLiteral (lc "使用") s with
  | none => rw [hd] at h; cases h
  | some r =>
    rw [hd] at h
    have hrs : r <:+ s := by
      unfold dropLiteral at hd
      split at hd
      · cases hd
        exact List.drop_suffix _ _
      · cases hd
    exact contains_of_suffix_codex s _ ((List.dropWhile_suffix _).trans hrs) h

theorem codexRegexTest_eq (s : Str) : codexRegexTest s = containsCodexCI s := by
  induction s with
  | nil => rfl
  | cons c rest ih =>
    cases hm : matchUseCodexAt (c :: rest)
    · simp only [codexRegexTest, containsCodexCI, hm, Bool.or_false, ih]
    · have hc := matchUse_contains _ hm
      simp only [containsCodexCI] at hc
      simp only [codexRegexTest, containsCodexCI, hm, ih, hc]
      simp [hc]

/-- Claim C10.  For the two gated stages (po, architect) the engine set
computed by `getEnginesForStage` — the set every response reports — is
`[claude, codex]` exactly when the objective contains the substring
`codex` case-insensitively (the second regex alternative
`使用\s*codex` is subsumed by the first, as `codexRegexTest_eq` shows),
and is `[claude]` otherwise; for the other four stages it is the static
per-stage engine set of `WORKFLOW_DEFINITION`, independent of the
objective. -/
theorem claim_C10_engine_selection (session : Session) (stage : Stage) :
    ((stage = .po ∨ stage = .architect) →
      (getEnginesForStage session stage = [.claude, .codex] ↔
        containsCodexCI session.objective = true) ∧
      (containsCodexCI session.objective = false →
        getEnginesForStage session stage = [.claude])) ∧
    (¬(stage = .po ∨ stage = .architect) →
      getEnginesForStage session stage = WORKFLOW_DEFINITION.engines stage) := by
  constructor
  · intro hg
    unfold getEnginesForStage
    rw [if_pos hg, codexRegexTest_eq]
    cases hc : containsCodexCI session.objective <;> simp [hc]
  · intro hg
    unfold getEnginesForStage
    rw [if_neg hg]

/-- Witness for claim C10: an objective mentioning codex enables both
engines for po; a codex-free objective leaves po on claude only; the sm
stage keeps its static engine set. -/
theorem claim_C10_witness :
    getEnginesForStage { defaultSession with objective := lc "use codex" } .po =
      [.claude, .codex] ∧
    getEnginesForStage defaultSession .po = [.claude] ∧
    getEnginesForStage defaultSession .sm = WORKFLOW_DEFINITION.engines .sm := by
  refine ⟨?_, ?_, ?_⟩
  · exact ((claim_C10_engine_selection
      { defaultSession with objective := lc "use codex" } .po).1 (Or.inl rfl)).1.mpr (by decide)
  · exact ((claim_C10_engine_selection defaultSession .po).1 (Or.inl rfl)).2 (by decide)
  · exact (claim_C10_engine_selection defaultSession .sm).2 (by decide)

/-! ## Claim C7: unknown session ids -/

/-- Claim C7.  Every operation other than `start`, invoked with a session
id that has neither an in-memory nor a durable record, returns the
structured `Session not found` failure and leaves the world — sessions,
durable records, files, clock — completely unchanged. -/
theorem claim_C7_unknown_session (w : World) (sid : Str) (stage : Stage)
    (cr xr : Option Str) (ans : Sum Str (List (Str × Str))) (cb ab : Bool)
    (fb : Option Str)
    (hmem : lookupAssoc w.sessions sid = none)
    (hdisk : lookupAssoc w.disk sid = none) :
    submit w sid stage cr xr = (w, errorResponse (lc "Session not found")) ∧
    answer w sid ans = (w, errorResponse (lc "Session not found")) ∧
    confirmSave w sid cb = (w, errorResponse (lc "Session not found")) ∧
    approve w sid ab fb = (w, errorResponse (lc "Session not found")) ∧
    statusOp w sid = (w, errorResponse (lc "Session not found")) := by
  refine ⟨?_, ?_, ?_, ?_, ?_⟩ <;>
    simp [submit, answer, confirmSave, approve, statusOp, hmem, hdisk]

/-- Witness for claim C7 on the empty world. -/
theorem claim_C7_witness :
    submit World.init (lc "missing") .po none none =
      (World.init, errorResponse (lc "Session not found")) ∧
    answer World.init (lc "missing") (.inr []) =
      (World.init, errorResponse (lc "Session not found")) :=
  have h := claim_C7_unknown_session World.init (lc "missing") .po none none
    (.inr []) true true none rfl rfl
  ⟨h.1, h.2.1⟩

/-! ## Claim C9: a rejected confirmation preserves the stage data -/

/-- Claim C9.  A `confirm` with `confirmed = false` on an existing
session reverts the session state to clarifying and leaves the current
stage's stored questions, gaps and draft — indeed the whole stage map —
and the artifact list unchanged. -/
theorem claim_C9_reject_frame (w : World) (sid : Str) (s : Session)
    (hid : s.session_id = sid)
    (h : lookupAssoc w.sessions sid = some s) :
    lookupAssoc (confirmSave w sid false).1.sessions sid =
      some { s with current_state := .clarifying, updated_at := w.clock } ∧
    (lookupAssoc (confirmSave w sid false).1.sessions sid).map
      Session.current_state = some .clarifying ∧
    (lookupAssoc (confirmSave w sid false).1.sessions sid).map
      (fun x => (x.stages.get s.current_stage).questions) =
      some (s.stages.get s.current_stage).questions ∧
    (lookupAssoc (confirmSave w sid false).1.sessions sid).map
      (fun x => (x.stages.get s.current_stage).gaps) =
      some (s.stages.get s.current_stage).gaps ∧
    (lookupAssoc (confirmSave w sid false).1.sessions sid).map
      (fun x => (x.stages.get s.current_stage).draft) =
      some (s.stages.get s.current_stage).draft ∧
    (lookupAssoc (confirmSave w sid false).1.sessions sid).map
      Session.artifacts = some s.artifacts := by
  have key : lookupAssoc (confirmSave w sid false).1.sessions sid =
      some { s with current_state := .clarifying, updated_at := w.clock } := by
    simp only [confirmSave, h, saveSession, saveContentReference, Bool.not_false,
      if_true]
    rw [hid]
    exact lookup_set_self _ _ _
  refine ⟨key, ?_, ?_, ?_, ?_, ?_⟩ <;> rw [key] <;> rfl

/-- Witness for claim C9 on the demo session awaiting confirmation. -/
theorem claim_C9_witness :
    (lookupAssoc (confirmSave demoW2 demoSid false).1.sessions demoSid).map
      Session.current_state = some .clarifying ∧
    (lookupAssoc (confirmSave demoW2 demoSid false).1.sessions demoSid).map
      Session.artifacts = some demoS2.artifacts := by
  have h := claim_C9_reject_frame demoW2 demoSid demoS2 (by decide) (by decide)
  exact ⟨h.2.1, h.2.2.2.2.2⟩

/-! ## Claim C2: a confirmed save appends one artifact and advances -/

/-- Claim C2.  A `confirm` with `confirmed = true` on a session whose
current stage carries a final reference (with its file readable) appends
exactly one new path — the fixed per-stage filename under the directory
keyed by the task name — to the artifact list, marks the current stage
completed, and then either moves the current stage forward by exactly one
pipeline position entering `generating`, or, on the last pipeline stage,
moves the session to `completed` without changing the stage — never both
and never neither, as the two exclusive match arms express. -/
theorem claim_C2_confirm_true_advances (w : World) (sid : Str) (s : Session)
    (ref : ContentReference) (content : Str)
    (hid : s.session_id = sid)
    (h : lookupAssoc w.sessions sid = some s)
    (href : (s.stages.get s.current_stage).final_result_ref = some ref)
    (hfile : lookupFs w.fs ref.file_path = some content) :
    ∃ s', lookupAssoc (confirmSave w sid true).1.sessions sid = some s' ∧
      s'.artifacts = s.artifacts ++
        [FPath.artifact s.cwd s.task_name (WORKFLOW_DEFINITION.artifacts s.current_stage)] ∧
      (s'.stages.get s.current_stage).status = .completed ∧
      (match getNextStage s.current_stage with
       | some next =>
         s'.current_stage = next ∧
         stageIdx s'.current_stage = stageIdx s.current_stage + 1 ∧
         s'.current_state = .generating ∧ s'.current_state ≠ .completed
       | none => s'.current_state = .completed ∧ s'.current_stage = s.current_stage) := by
  simp only [confirmSave, h, href, hfile, Bool.not_true, if_false, saveArtifact,
    saveSession]
  cases hn : getNextStage s.current_stage with
  | some next =>
    have hne : s.current_stage ≠ next := fun he => (getNextStage_ne _ _ hn) he.symm
    refine ⟨_, by rw [hid]; exact lookup_set_self _ _ _, ?_, ?_, ?_⟩
    · simp
    · simp [StageMap.get_set_eval, hne]
    · exact ⟨rfl, getNextStage_succ _ _ hn, rfl, by simp⟩
  | none =>
    refine ⟨_, by rw [hid]; exact lookup_set_self _ _ _, ?_, ?_, ?_⟩
    · simp
    · simp [StageMap.get_set_eval]
    · exact ⟨rfl, rfl⟩

/-- Witness for claim C2 on the demo session awaiting confirmation:
one artifact is appended and the stage advances from po to architect. -/
theorem claim_C2_witness :
    (lookupAssoc (confirmSave demoW2 demoSid true).1.sessions demoSid).map
      Session.current_state = some .generating ∧
    (lookupAssoc (confirmSave demoW2 demoSid true).1.sessions demoSid).map
      (fun x => x.artifacts.length) = some (demoS2.artifacts.length + 1) := by
  obtain ⟨s', hs, ha, _hc, hm⟩ := claim_C2_confirm_true_advances demoW2 demoSid demoS2
    demoRef2 demoContent2 (by decide) (by decide) (by decide) (by decide)
  have hnext : getNextStage demoS2.current_stage = some .architect := by decide
  rw [hnext] at hm
  rw [hs]
  refine ⟨?_, ?_⟩
  · simp [hm.2.2.1]
  · simp [ha]

/-! ## Claim C1: the first-iteration clarifying override -/

/-- Claim C1.  On a gated (dual-candidate) stage, when the stage's
iteration counter reads 1, no answers are recorded, and the merged
question list extracted from the candidates is non-empty, `submit`
always leaves the session clarifying — regardless of the extracted
scores — and in particular never reports or enters
`awaiting_confirmation`. -/
theorem claim_C1_first_iteration_clarifying (w : World) (sid : Str) (s : Session)
    (stage : Stage) (cr xr : Option Str)
    (hid : s.session_id = sid)
    (h : lookupAssoc w.sessions sid = some s)
    (hgated : stage = .po ∨ stage = .architect)
    (hiter : (s.stages.get stage).iteration.getD 1 = 1)
    (hans : (s.stages.get stage).answers = none)
    (hq : mergeQuestions (extractQuestions (cr.getD []))
      (extractQuestions (xr.getD [])) ≠ []) :
    (submit w sid stage cr xr).2 = .ok (some .clarifying) ∧
    (submit w sid stage cr xr).2 ≠ .ok (some .awaiting_confirmation) ∧
    (lookupAssoc (submit w sid stage cr xr).1.sessions sid).map
      Session.current_state = some .clarifying := by
  have hqe : (mergeQuestions (extractQuestions (cr.getD []))
      (extractQuestions (xr.getD []))).isEmpty = false := by
    cases hql : mergeQuestions (extractQuestions (cr.getD []))
      (extractQuestions (xr.getD [])) with
    | nil => exact absurd hql hq
    | cons a l => rfl
  have key : (submit w sid stage cr xr).2 = .ok (some .clarifying) ∧
      (lookupAssoc (submit w sid stage cr xr).1.sessions sid).map
        Session.current_state = some .clarifying := by
    simp only [submit, h, if_pos hgated]
    simp only [handleDualEngineStage, StageMap.get_set_eval, if_pos rfl,
      storeResultRefs_iteration, storeResultRefs_answers, storeResultRefs_sessions,
      hiter, hans, Option.getD_some, Option.isNone_none, beq_self_eq_true,
      Bool.and_self, hqe, Bool.not_false, Bool.and_true, if_true,
      saveSession, saveContentReference, saveContentToFile]
    rw [← hid]
    simp [lookup_set_self]
  exact ⟨key.1, by rw [key.1]; simp, key.2⟩

/-- Witness for claim C1: a first-iteration candidate self-scoring 95
with an embedded question still yields clarifying, not awaiting
confirmation — the score gate is overridden. -/
theorem claim_C1_witness :
    scoreContent demoQuestionBody = 95 ∧
    (submit demoW1 demoSid .po (some demoQuestionBody) none).2 =
      .ok (some .clarifying) ∧
    (submit demoW1 demoSid .po (some demoQuestionBody) none).2 ≠
      .ok (some .awaiting_confirmation) :=
  have h := claim_C1_first_iteration_clarifying demoW1 demoSid demoS1 .po
    (some demoQuestionBody) none (by decide) (by decide) (Or.inl rfl) (by decide)
    (by decide) (by decide)
  ⟨by decide, h.1, h.2.1⟩

/-! ## Claim C6: reference immutability -/

theorem lookupFs_write_self (l : List (FPath × Str)) (p : FPath) (c : Str) :
    lookupFs (writeFs l p c) p = some c := by
  induction l with
  | nil => simp [writeFs, lookupFs]
  | cons kv rest ih =>
    by_cases h : kv.1 = p <;> simp [writeFs, lookupFs, h, ih]

theorem lookupFs_write_ne (l : List (FPath × Str)) (p q : FPath) (c : Str)
    (h : q ≠ p) : lookupFs (writeFs l p c) q = lookupFs l q := by
  induction l with
  | nil => simp [writeFs, lookupFs, Ne.symm h]
  | cons kv rest ih =>
    by_cases hk : kv.1 = p
    · subst hk
      simp [writeFs, lookupFs, Ne.symm h]
    · simp only [writeFs, if_neg hk, lookupFs]
      by_cases hk' : kv.1 = q <;> simp [hk', ih]

/-- Claim C6 (amended).  For the timestamped temp-file store
(`saveContentToFile`), under the freshness assumption that every existing
temp file carries a timestamp below the clock, each save creates a brand
new file: the generated path does not previously exist (nothing is
appended to or overwritten in place), the referenced file holds exactly
the saved content before the reference is returned (and hence before it
is attached to any stage record), and no other file changes.  The
unamended claim fails for the dual-engine merge path, which attaches a
reference to the fixed artifact path — see the counterexample. -/
theorem claim_C6_amended_tempfile_immutable (w : World) (sid cwd ct : Str)
    (stage : Stage) (content : Str)
    (hfresh : ∀ cwd2 sid2 stage2 ct2 ts c,
      lookupFs w.fs (FPath.tempA cwd2 sid2 stage2 ct2 ts) = some c → ts < w.clock) :
    lookupFs w.fs (saveContentToFile w sid cwd ct stage content).1.file_path = none ∧
    lookupFs (saveContentToFile w sid cwd ct stage content).2.fs
      (saveContentToFile w sid cwd ct stage content).1.file_path = some content ∧
    (∀ p, p ≠ (saveContentToFile w sid cwd ct stage content).1.file_path →
      lookupFs (saveContentToFile w sid cwd ct stage content).2.fs p =
        lookupFs w.fs p) := by
  refine ⟨?_, ?_, ?_⟩
  · cases hl : lookupFs w.fs (FPath.tempA cwd sid stage ct w.clock) with
    | none => exact hl
    | some c =>
      have := hfresh cwd sid stage ct w.clock c hl
      omega
  · exact lookupFs_write_self _ _ _
  · intro p hp
    exact lookupFs_write_ne _ _ _ _ hp

/-- Witness for the amended claim C6 on the empty world. -/
theorem claim_C6_witness :
    lookupFs World.init.fs
      (saveContentToFile World.init demoSid (lc "/w") (lc "claude_result") .po
        (lc "body")).1.file_path = none ∧
    lookupFs (saveContentToFile World.init demoSid (lc "/w") (lc "claude_result") .po
        (lc "body")).2.fs
      (saveContentToFile World.init demoSid (lc "/w") (lc "claude_result") .po
        (lc "body")).1.file_path = some (lc "body") :=
  have h := claim_C6_amended_tempfile_immutable World.init demoSid (lc "/w")
    (lc "claude_result") .po (lc "body")
    (fun _ _ _ _ _ _ hl => by simp [lookupFs, World.init] at hl)
  ⟨h.1, h.2.1⟩

/-- Counterexample for claim C6 as stated.  The final reference attached
by the dual-engine merge path of the first high-scoring submit points at
the fixed per-stage artifact file (no timestamp in the name); the second
submit for the same stage overwrites that file in place — the content
behind the earlier, unchanged reference changes from body A to body B. -/
theorem claim_C6_counterexample :
    demoS2.stages.po.final_result_ref = some demoRef2 ∧
    demoRef2.file_path =
      FPath.artifact (lc "/w") (lc "demo-task") (lc "01-product-requirements.md") ∧
    lookupFs demoW2.fs demoRef2.file_path = some demoHighBody ∧
    lookupFs demoW2b.fs demoRef2.file_path = some demoHighBodyB ∧
    demoHighBody ≠ demoHighBodyB :=
  ⟨by decide, by decide, by decide, by decide, by decide⟩

/-! ## Claim C3: stage-ordering machinery -/

theorem inv_congr {s s' : Session} (h : StageOrderInv s)
    (hcur : s'.current_stage = s.current_stage)
    (hst : ∀ t, (s'.stages.get t).status = (s.stages.get t).status) :
    StageOrderInv s' := by
  obtain ⟨h1, h2, h3⟩ := h
  refine ⟨fun t ht => ?_, fun t ht => ?_, ?_⟩
  · rw [hst]
    exact h1 t (by rwa [hcur] at ht)
  · rw [hst]
    exact h2 t (by rwa [hcur] at ht)
  · rw [hst, hcur]
    exact h3

theorem inv_complete {s s' : Session} (h : StageOrderInv s)
    (hcur : s'.current_stage = s.current_stage)
    (hst : ∀ t, (s'.stages.get t).status =
      if t = s.current_stage then .completed else (s.stages.get t).status) :
    StageOrderInv s' := by
  obtain ⟨h1, h2, _h3⟩ := h
  refine ⟨fun t ht => ?_, fun t ht => ?_, ?_⟩
  · rw [hst]
    rw [hcur] at ht
    by_cases he : t = s.current_stage
    · simp [he]
    · rw [if_neg he]
      exact h1 t ht
  · rw [hst]
    rw [hcur] at ht
    have he : ¬ t = s.current_stage := by
      intro he
      subst he
      omega
    rw [if_neg he]
    exact h2 t ht
  · rw [hst, hcur]
    simp

theorem inv_advance {s s' : Session} {n : Stage} (h : StageOrderInv s)
    (hn : getNextStage s.current_stage = some n)
    (hcur : s'.current_stage = n)
    (hst : ∀ t, (s'.stages.get t).status =
      if t = n then .in_progress
      else if t = s.current_stage then .completed
      else (s.stages.get t).status) :
    StageOrderInv s' := by
  obtain ⟨h1, h2, _h3⟩ := h
  have hsucc := getNextStage_succ _ _ hn
  refine ⟨fun t ht => ?_, fun t ht => ?_, ?_⟩
  · rw [hst]
    rw [hcur] at ht
    have hne : ¬ t = n := by
      intro he
      subst he
      omega
    rw [if_neg hne]
    by_cases he : t = s.current_stage
    · simp [he]
    · rw [if_neg he]
      apply h1
      have : stageIdx t ≠ stageIdx s.current_stage := fun hh => he (stageIdx_inj _ _ hh)
      omega
  · rw [hst]
    rw [hcur] at ht
    have hne : ¬ t = n := by
      intro he
      subst he
      omega
    have hne2 : ¬ t = s.current_stage := by
      intro he
      subst he
      omega
    rw [if_neg hne, if_neg hne2]
    apply h2
    omega
  · rw [hst, hcur]
    simp

theorem inv_to_claims {s : Session} (h : StageOrderInv s) :
    AtMostOneInProgress s ∧ LaterOnlyAfterEarlier s := by
  obtain ⟨h1, h2, _h3⟩ := h
  have hcur : ∀ t, (s.stages.get t).status = .in_progress → t = s.current_stage := by
    intro t ht
    by_cases hlt : stageIdx t < stageIdx s.current_stage
    · rw [h1 t hlt] at ht
      cases ht
    · by_cases hgt : stageIdx s.current_stage < stageIdx t
      · rw [h2 t hgt] at ht
        cases ht
      · exact stageIdx_inj _ _ (by omega)
  constructor
  · intro t u ht hu
    rw [hcur t ht, hcur u hu]
  · intro t ht u hlt
    have htle : stageIdx t ≤ stageIdx s.current_stage := by
      by_contra hgt
      push_neg at hgt
      rw [h2 t hgt] at ht
      rcases ht with ht | ht <;> cases ht
    exact h1 u (by omega)

theorem worldInv_congr {w w' : World}
    (hs : w'.sessions = w.sessions) (hd : w'.disk = w.disk)
    (hw : WorldInv w) : WorldInv w' := by
  constructor
  · intro sid s hl
    rw [hs] at hl
    exact hw.1 sid s hl
  · intro sid s hl
    rw [hd] at hl
    exact hw.2 sid s hl

theorem worldInv_save {w w' : World} {key : Str} {s' : Session}
    (hw : WorldInv w)
    (hs : w'.sessions = setAssoc w.sessions key s')
    (hd : w'.disk = setAssoc w.disk key s')
    (hsid : s'.session_id = key)
    (hinv : StageOrderInv s') :
    WorldInv w' := by
  constructor
  · intro sid s hl
    rw [hs] at hl
    by_cases he : sid = key
    · subst he
      rw [lookup_set_self] at hl
      cases hl
      exact ⟨hsid, hinv⟩
    · rw [lookup_set_ne _ _ _ _ he] at hl
      exact hw.1 sid s hl
  · intro sid s hl
    rw [hd] at hl
    by_cases he : sid = key
    · subst he
      rw [lookup_set_self] at hl
      cases hl
      exact ⟨hsid, hinv⟩
    · rw [lookup_set_ne _ _ _ _ he] at hl
      exact hw.2 sid s hl

theorem handleDual_preserves (w : World) (session : Session) (stage : Stage)
    (cr xr : Option Str)
    (hw : WorldInv w)
    (hinv : StageOrderInv session) :
    WorldInv (handleDualEngineStage w session stage cr xr).1 := by
  simp only [handleDualEngineStage]
  repeat' split
  all_goals (
    apply worldInv_save hw
    · simp only [saveSession, saveArtifact, saveContentReference, set_set_same]
      first | done | rfl
    · simp only [saveSession, saveArtifact, saveContentReference, set_set_same]
      first | done | rfl
    · rfl
    · refine inv_congr hinv rfl ?_
      intro t
      simp only [StageMap.get_set_eval]
      by_cases ht : t = stage <;> simp [ht])

theorem handleSingle_preserves (w : World) (session : Session) (stage : Stage)
    (result : Str)
    (hw : WorldInv w)
    (hinv : StageOrderInv session)
    (hst : stage = session.current_stage) :
    WorldInv (handleSingleEngineStage w session stage result).1 := by
  subst hst
  simp only [handleSingleEngineStage]
  split
  · apply worldInv_save hw
    · simp only [saveSession, saveContentToFile, saveArtifact]
      first | done | rfl
    · simp only [saveSession, saveContentToFile, saveArtifact]
      first | done | rfl
    · rfl
    · refine inv_complete hinv ?_ ?_
      · rfl
      · intro t
        simp only [StageMap.get_set_eval]
        by_cases ht : t = session.current_stage <;> simp [ht]
  · split
    next nextStage hn =>
      apply worldInv_save hw
      · simp only [saveSession, saveContentToFile, saveArtifact]
        first | done | rfl
      · simp only [saveSession, saveContentToFile, saveArtifact]
        first | done | rfl
      · rfl
      · refine inv_advance hinv hn ?_ ?_
        · rfl
        · intro t
          have hne1 : nextStage ≠ session.current_stage := getNextStage_ne _ _ hn
          have hne2 : ¬ session.current_stage = nextStage := fun he => hne1 he.symm
          simp only [StageMap.get_set_eval]
          by_cases ht : t = nextStage
          · simp [ht]
          · by_cases ht2 : t = session.current_stage <;> simp [ht, ht2, hne1, hne2]
    next hn =>
      apply worldInv_save hw
      · simp only [saveSession, saveContentToFile, saveArtifact]
        first | done | rfl
      · simp only [saveSession, saveContentToFile, saveArtifact]
        first | done | rfl
      · rfl
      · refine inv_complete hinv ?_ ?_
        · rfl
        · intro t
          simp only [StageMap.get_set_eval]
          by_cases ht : t = session.current_stage <;> simp [ht]

theorem worldInv_rehydrate {w : World} {sid : Str} {s : Session}
    (hw : WorldInv w) (h : lookupAssoc w.disk sid = some s) :
    WorldInv { w with sessions := setAssoc w.sessions sid s } := by
  obtain ⟨hsid, hinv⟩ := hw.2 sid s h
  constructor
  · intro sid2 s2 hl
    by_cases he : sid2 = sid
    · subst he
      rw [lookup_set_self] at hl
      cases hl
      exact ⟨hsid, hinv⟩
    · rw [lookup_set_ne _ _ _ _ he] at hl
      exact hw.1 sid2 s2 hl
  · exact hw.2

theorem answerGo_preserves (w : World) (session : Session)
    (ans : Sum Str (List (Str × Str)))
    (hw : WorldInv w) (hinv : StageOrderInv session) :
    WorldInv (answerGo w session ans).1 := by
  simp only [answerGo]
  apply worldInv_save hw
  · simp only [saveSession, saveContentReference]
    first | done | rfl
  · simp only [saveSession, saveContentReference]
    first | done | rfl
  · rfl
  · refine inv_congr hinv ?_ ?_
    · rfl
    · intro t
      simp only [StageMap.get_set_eval]
      by_cases ht : t = session.current_stage <;> simp [ht]

theorem confirmSave_preserves (w : World) (sid : Str) (c : Bool)
    (hw : WorldInv w) : WorldInv (confirmSave w sid c).1 := by
  cases hl : lookupAssoc w.sessions sid with
  | none =>
    simp only [confirmSave, hl]
    exact hw
  | some s =>
    obtain ⟨hsid, hinv⟩ := hw.1 sid s hl
    simp only [confirmSave, hl]
    split
    · apply worldInv_save hw
      · simp only [saveSession, saveContentReference]
        first | done | rfl
      · simp only [saveSession, saveContentReference]
        first | done | rfl
      · rfl
      · exact inv_congr hinv rfl (fun _ => rfl)
    · split
      · exact hw
      · split
        · exact hw
        · split
          next nextStage hn =>
            apply worldInv_save hw
            · simp only [saveSession, saveArtifact]
              first | done | rfl
            · simp only [saveSession, saveArtifact]
              first | done | rfl
            · rfl
            · refine inv_advance hinv hn ?_ ?_
              · rfl
              · intro t
                have hne1 : nextStage ≠ s.current_stage := getNextStage_ne _ _ hn
                have hne2 : ¬ s.current_stage = nextStage := fun he => hne1 he.symm
                simp only [StageMap.get_set_eval]
                by_cases ht : t = nextStage
                · simp [ht]
                · by_cases ht2 : t = s.current_stage <;> simp [ht, ht2, hne1, hne2]
          next hn =>
            apply worldInv_save hw
            · simp only [saveSession, saveArtifact]
              first | done | rfl
            · simp only [saveSession, saveArtifact]
              first | done | rfl
            · rfl
            · refine inv_complete hinv ?_ ?_
              · rfl
              · intro t
                simp only [StageMap.get_set_eval]
                by_cases ht : t = s.current_stage <;> simp [ht]

theorem approve_preserves (w : World) (sid : Str) (ap : Bool) (fb : Option Str)
    (hw : WorldInv w)
    (hdisc : disciplinedB w (.approve sid ap fb) = true) :
    WorldInv (approve w sid ap fb).1 := by
  cases hl : lookupAssoc w.sessions sid with
  | none =>
    simp only [approve, hl]
    exact hw
  | some s =>
    obtain ⟨hsid, hinv⟩ := hw.1 sid s hl
    simp only [approve, hl]
    split
    next hap =>
      have hcomp : (s.stages.get s.current_stage).status = .completed := by
        subst hap
        simp only [disciplinedB, hl, Bool.not_true, Bool.false_or, beq_iff_eq] at hdisc
        exact hdisc
      split
      next nextStage hn =>
        apply worldInv_save hw
        · simp only [saveSession]
          first | done | rfl
        · simp only [saveSession]
          first | done | rfl
        · rfl
        · refine inv_advance hinv hn ?_ ?_
          · rfl
          · intro t
            have hne1 : nextStage ≠ s.current_stage := getNextStage_ne _ _ hn
            have hne2 : ¬ s.current_stage = nextStage := fun he => hne1 he.symm
            simp only [StageMap.get_set_eval]
            by_cases ht : t = nextStage
            · simp [ht]
            · by_cases ht2 : t = s.current_stage <;>
                simp [ht, ht2, hne1, hne2, hcomp]
      next hn =>
        apply worldInv_save hw
        · simp only [saveSession]
          first | done | rfl
        · simp only [saveSession]
          first | done | rfl
        · rfl
        · refine inv_congr hinv ?_ ?_
          · rfl
          · intro t
            simp only [StageMap.get_set_eval]
            by_cases ht : t = s.current_stage <;> simp [ht]
    next hap =>
      apply worldInv_save hw
      · simp only [saveSession]
        first | done | rfl
      · simp only [saveSession]
        first | done | rfl
      · rfl
      · exact inv_congr hinv rfl (fun _ => rfl)

theorem step_preserves (w : World) (op : Op)
    (hw : WorldInv w) (hdisc : disciplinedB w op = true) :
    WorldInv (step w op) := by
  cases op with
  | start sid cwd objective =>
    simp only [step, start]
    apply worldInv_save hw
    · simp only [saveSession, set_set_same]
      first | done | rfl
    · simp only [saveSession]
      first | done | rfl
    · rfl
    · refine ⟨?_, ?_, ?_⟩
      · intro t ht
        exact absurd ht (by cases t <;> simp [stageIdx])
      · intro t ht
        cases t <;> first | rfl | (exact absurd ht (by simp [stageIdx]))
      · left
        rfl
  | submit sid stage cr xr =>
    cases hl : lookupAssoc w.sessions sid with
    | none =>
      simp only [step, submit, hl]
      exact hw
    | some s =>
      obtain ⟨hsid, hinv⟩ := hw.1 sid s hl
      simp only [step, submit, hl]
      simp only [disciplinedB, hl, beq_iff_eq] at hdisc
      have hw2 : WorldInv (storeResultRefs w sid s stage cr xr).2 :=
        worldInv_congr (storeResultRefs_sessions w sid s stage cr xr)
          (storeResultRefs_disk w sid s stage cr xr) hw
      have hinv2 : StageOrderInv
          ({ s with stages := s.stages.set stage (storeResultRefs w sid s stage cr xr).1 }) := by
        refine inv_congr hinv rfl ?_
        intro t
        simp only [StageMap.get_set_eval]
        by_cases ht : t = stage
        · simp [ht, storeResultRefs_status]
        · simp [ht]
      have hw3 : WorldInv (saveSession (storeResultRefs w sid s stage cr xr).2
          { s with stages := s.stages.set stage (storeResultRefs w sid s stage cr xr).1 }) := by
        apply worldInv_save hw2
        · rfl
        · rfl
        · rfl
        · exact inv_congr hinv2 rfl (fun _ => rfl)
      split
      · exact handleDual_preserves _ _ _ _ _ hw3 hinv2
      · split
        · exact handleSingle_preserves _ _ _ _ hw3 hinv2 hdisc
        · exact handleSingle_preserves _ _ _ _ hw3 hinv2 hdisc
  | answer sid ans =>
    cases hl : lookupAssoc w.sessions sid with
    | some s =>
      obtain ⟨hsid, hinv⟩ := hw.1 sid s hl
      simp only [step, answer, hl]
      exact answerGo_preserves _ _ _ hw hinv
    | none =>
      cases hld : lookupAssoc w.disk sid with
      | some s =>
        obtain ⟨hsid, hinv⟩ := hw.2 sid s hld
        simp only [step, answer, hl, hld]
        exact answerGo_preserves _ _ _ (worldInv_rehydrate hw hld) hinv
      | none =>
        simp only [step, answer, hl, hld]
        exact hw
  | confirm sid c =>
    exact confirmSave_preserves w sid c hw
  | approve sid ap fb =>
    exact approve_preserves w sid ap fb hw hdisc
  | statusQ sid =>
    cases hl : lookupAssoc w.sessions sid <;> simp only [step, statusOp, hl] <;> exact hw

theorem run_preserves (ops : List Op) : ∀ (w : World), WorldInv w → DTrace w ops →
    WorldInv (run w ops) := by
  induction ops with
  | nil =>
    intro w hw _
    exact hw
  | cons op ops ih =>
    intro w hw htr
    cases htr with
    | cons _ _ _ hdisc htr2 => exact ih (step w op) (step_preserves w op hw hdisc) htr2

theorem worldInv_init : WorldInv World.init := by
  constructor <;> intro sid s hl <;> simp [World.init, lookupAssoc] at hl

/-- Claim C3 (amended).  Over disciplined operation sequences — `submit`
invoked with the session's current stage and `approve(true)` only once
the current stage is completed (its intended `awaiting_approval` moment)
— every reachable session record has at most one stage in progress, and
a stage shows in-progress or completed only when all earlier stages are
completed.  The unrestricted claim is refuted by the counterexample: the
code does not guard `approve` (or the `stage` argument of `submit`), so
an out-of-protocol call breaks the invariant. -/
theorem claim_C3_amended_stage_invariant (ops : List Op) (sid : Str) (s : Session)
    (htr : DTrace World.init ops)
    (hl : lookupAssoc (run World.init ops).sessions sid = some s) :
    AtMostOneInProgress s ∧ LaterOnlyAfterEarlier s := by
  have hw := run_preserves ops World.init worldInv_init htr
  exact inv_to_claims (hw.1 sid s hl).2

/-- Witness for the amended claim C3 on a disciplined two-step trace. -/
theorem claim_C3_witness :
    AtMostOneInProgress c3WitnessSession ∧ LaterOnlyAfterEarlier c3WitnessSession := by
  apply claim_C3_amended_stage_invariant c3WitnessTrace demoSid c3WitnessSession
  · exact DTrace.cons _ _ _ (by decide) (DTrace.cons _ _ _ (by decide) (DTrace.nil _))
  · decide

/-- Counterexample for claim C3 as stated: over arbitrary operation
sequences the invariant fails.  An `approve(true)` issued directly after
`start` advances to the architect stage and marks it in progress without
completing the po stage, leaving two stages simultaneously in progress. -/
theorem claim_C3_counterexample :
    c3CounterSession.stages.po.status = .in_progress ∧
    c3CounterSession.stages.architect.status = .in_progress ∧
    ¬ AtMostOneInProgress c3CounterSession :=
  ⟨by decide, by decide,
    fun hmo => absurd (hmo .po .architect (by decide) (by decide)) (by decide)⟩

end Bmad
